import Mathlib

/-!
# Gate_QA — verification of the identity / uid / resolution / evaluation core

Shallow embedding of the identity-extraction, uid-building, answer-resolution
and answer-evaluation logic of the Gate_QA single-page application.

* `src/src/services/QuestionService.js` — `extractGateOverflowId`, `hashString`,
  `buildQuestionUid`, `hasNativeJoinIdentity`, `normalizeQuestion`, `init`.
* `src/utils/examUid.js` (present in the sources as an unnamed file) —
  `normalizeSetNo`, `normalizeExamQuestionToken`, `parseYearTag`,
  `buildExamUid`, `examUidFromLink`, `examUidFromTitle`,
  `getExamUidFromQuestion`.
* `AnswerService` and `evaluateAnswer` are referenced by the components and
  exercised by the unit tests, but their implementation files are not in the
  sources; they are modelled from the specification (marked below).

JavaScript strings are modelled as Lean `String`/`List Char`; machine
arithmetic (`Math.imul`, `>>> 0`) is modelled on `Nat` with explicit
`% 2 ^ 32`; fallible operations return `Option`.
-/

namespace GateQA

/-- JavaScript whitespace characters (the set relevant to `String.trim` and
the `\s` regex class for the inputs of this application). -/
def isJsWs (c : Char) : Bool :=
  c = ' ' || c = '\t' || c = '\n' || c = '\r' || c = '\x0b' || c = '\x0c' ||
  c = ' ' || c = '﻿'

/-- Left trim on character lists. -/
def ltrim (l : List Char) : List Char := l.dropWhile isJsWs

/-- Right trim on character lists. -/
def rtrim (l : List Char) : List Char := ((l.reverse).dropWhile isJsWs).reverse

/-- `String.prototype.trim`. -/
def jsTrim (s : String) : String := String.mk (ltrim (rtrim s.data))

/-- ASCII decimal digit (the regex class `\d` / `[0-9]`). -/
def isDigit10 (c : Char) : Bool := 48 ≤ c.toNat && c.toNat ≤ 57

/-- Numeric value of a list of ASCII digits (most significant first). -/
def digitsToNat (l : List Char) : Nat :=
  l.foldl (fun acc c => acc * 10 + (c.toNat - '0'.toNat)) 0

/-- `Number.parseInt(s, 10)` on an already-trimmed string: an optional sign
followed by a longest ASCII digit prefix; `none` models `NaN` (no digit). -/
def parseIntPrefix (s : String) : Option Int :=
  let core : List Char → Option Int := fun l =>
    let ds := l.takeWhile isDigit10
    if ds.isEmpty then none else some (Int.ofNat (digitsToNat ds))
  match s.data with
  | '-' :: rest => (core rest).map (fun v => -v)
  | '+' :: rest => core rest
  | l => core l

/-- `normalizeSetNo` from `examUid.js`: parse the raw set number, defaulting
to `"1"` when it is absent, non-numeric or non-positive.  A missing
(`null`/`undefined`) argument is modelled as `none` (JS coerces it to `""`). -/
def normalizeSetNo (rawSet : Option String) : String :=
  match parseIntPrefix (jsTrim (rawSet.getD "")) with
  | none => "1"
  | some v => if v ≤ 0 then "1" else toString v

/-- The character class `[a-z0-9.-]` of `normalizeExamQuestionToken`. -/
def isTokenChar (c : Char) : Bool :=
  (97 ≤ c.toNat && c.toNat ≤ 122) || isDigit10 c || c = '.' || c = '-'

/-- Separator characters of a question token (the regex class `[.-]`). -/
def isSep (c : Char) : Bool := c = '.' || c = '-'

/-- `.replace(/_/g, "-").replace(/–/g, "-").replace(/—/g, "-")`:
underscore and the Unicode dash variants become plain hyphens. -/
def dashToHyphen (c : Char) : Char :=
  if c = '_' || c = '–' || c = '—' then '-' else c

/-- `.replace(/[^a-z0-9.-]+/g, "-")`: every maximal run of characters
outside the token class becomes a single hyphen.  The boolean state records
whether the previous character was part of such a run. -/
def collapseDisallowedAux : Bool → List Char → List Char
  | _, [] => []
  | prevBad, c :: rest =>
    if isTokenChar c then c :: collapseDisallowedAux false rest
    else if prevBad then collapseDisallowedAux true rest
    else '-' :: collapseDisallowedAux true rest

def collapseDisallowed (l : List Char) : List Char := collapseDisallowedAux false l

/-- The hyphen-run replacement of `normalizeExamQuestionToken`: every
maximal run of hyphens becomes a single hyphen. -/
def collapseHyphensAux : Bool → List Char → List Char
  | _, [] => []
  | prevHyp, c :: rest =>
    if c = '-' then
      if prevHyp then collapseHyphensAux true rest
      else '-' :: collapseHyphensAux true rest
    else c :: collapseHyphensAux false rest

def collapseHyphens (l : List Char) : List Char := collapseHyphensAux false l

/-- `.replace(/^[.-]+|[.-]+$/g, "")`: strip leading and trailing runs of
`.`/`-`. -/
def stripSeps (l : List Char) : List Char :=
  ((l.dropWhile isSep).reverse.dropWhile isSep).reverse

/-- `String(Number.parseInt(part, 10))` applied to an all-digit segment;
other segments are untouched.  (We model JS numbers by `Nat`; question
tokens never reach the 2^53 regime where JS floats would diverge.) -/
def segTransform (seg : List Char) : List Char :=
  if !seg.isEmpty && seg.all isDigit10 then (Nat.repr (digitsToNat seg)).data
  else seg

/-- `.split(/([.-])/)` followed by the per-segment map and `join("")`:
each maximal separator-free segment is transformed, the separator
characters are kept in place.  `acc` is the current segment, reversed. -/
def segMapAux (acc : List Char) : List Char → List Char
  | [] => segTransform acc.reverse
  | c :: rest =>
    if isSep c then segTransform acc.reverse ++ c :: segMapAux [] rest
    else segMapAux (c :: acc) rest

/-- `normalizeExamQuestionToken` from `examUid.js`: lowercase, dash variants
to hyphens, collapse characters outside `[a-z0-9.-]` and repeated hyphens,
strip boundary separators, and strip leading zeros from every all-digit
segment.  (Lean's `Char.toLower` lowercases only ASCII letters; any
non-ASCII letter is collapsed to `-` by the class replacement in either
reading, so the results agree on every input.) -/
def normalizeExamQuestionToken (rawToken : String) : String :=
  let cleaned :=
    stripSeps (collapseHyphens (collapseDisallowed
      (((jsTrim rawToken).data.map Char.toLower).map dashToHyphen)))
  if cleaned.isEmpty then ""
  else String.mk (stripSeps (segMapAux [] cleaned))

/-- `buildExamUid` from `examUid.js`:
`` `cse:${year}:set${normalizeSetNo(setNo)}:${section}:q${questionToken}` ``. -/
def buildExamUid (year : String) (setNo : Option String) (sect : String)
    (questionToken : String) : String :=
  "cse:" ++ year ++ ":set" ++ normalizeSetNo setNo ++ ":" ++ sect ++ ":q" ++
    questionToken

/-- Case-insensitive literal prefix match (the `/i` regex flag restricted to
ASCII, which covers every literal in the patterns): returns the rest of the
input after the prefix. -/
def stripPrefixCI : List Char → List Char → Option (List Char)
  | [], l => some l
  | p :: ps, l =>
    match l with
    | [] => none
    | c :: cs => if p.toLower = c.toLower then stripPrefixCI ps cs else none

/-- `(\d{4})`: exactly four ASCII digits, returned with the rest. -/
def take4Digits : List Char → Option (List Char × List Char)
  | a :: b :: c :: d :: rest =>
    if isDigit10 a && isDigit10 b && isDigit10 c && isDigit10 d then
      some ([a, b, c, d], rest)
    else none
  | _ => none

/-- `(\d+)(?:[/?#]|$)`: a maximal nonempty digit run that is followed by a
path/query/fragment delimiter or the end of input.  (Backtracking inside
`\d+` cannot rescue a failed delimiter check: a shorter digit run is
followed by a digit, which is not a delimiter.) -/
def digitsThenDelim (l : List Char) : Option (List Char) :=
  let ds := l.takeWhile isDigit10
  if ds.isEmpty then none
  else
    match l.drop ds.length with
    | [] => some ds
    | c :: _ => if c = '/' || c = '?' || c = '#' then some ds else none

/-- The host-and-id core `gateoverflow\.in\/(\d+)(?:[/?#]|$)` of the
absolute GateOverflow-link pattern at a fixed position. -/
def tryGoHost (l2 : List Char) : Option (List Char) :=
  match stripPrefixCI "gateoverflow.in/".data l2 with
  | none => none
  | some r => digitsThenDelim r

/-- `(?:www\.)?` followed by the host core, with the regex backtracking
over the optional group. -/
def afterGoScheme (l1 : List Char) : Option (List Char) :=
  (match stripPrefixCI "www.".data l1 with
   | some r => tryGoHost r
   | none => none) <|> tryGoHost l1

/-- One attempt of the absolute GateOverflow-link pattern
`(?:https?:\/\/)?(?:www\.)?gateoverflow\.in\/(\d+)(?:[/?#]|$)` at a fixed
start position, with the regex backtracking over the optional scheme. -/
def matchGoAbsHere (l : List Char) : Option (List Char) :=
  (match stripPrefixCI "https://".data l with
   | some r => afterGoScheme r
   | none => none) <|>
  (match stripPrefixCI "http://".data l with
   | some r => afterGoScheme r
   | none => none) <|>
  afterGoScheme l

/-- Unanchored leftmost search for the absolute GateOverflow-link pattern. -/
def searchGoAbs : List Char → Option (List Char)
  | [] => none
  | c :: rest => matchGoAbsHere (c :: rest) <|> searchGoAbs rest

/-- The anchored relative pattern `^\/?(\d+)(?:[/?#]|$)`. -/
def matchGoRel (l : List Char) : Option (List Char) :=
  (match l with
   | '/' :: rest => digitsThenDelim rest
   | _ => none) <|> digitsThenDelim l

/-- `QuestionService.extractGateOverflowId`: the leading numeric id of a
GateOverflow question URL (absolute or root-relative), or `none`. -/
def extractGateOverflowId (link : String) : Option String :=
  let raw := jsTrim link
  if raw = "" then none
  else ((searchGoAbs raw.data).map String.mk) <|>
    ((matchGoRel raw.data).map String.mk)

/-- One attempt of `gatecse-(\d{4})(?:-set(\d+))?` at a fixed position:
year digits and the optional set digits. -/
def matchYearTagHere (l : List Char) :
    Option (List Char × Option (List Char)) :=
  match stripPrefixCI "gatecse-".data l with
  | none => none
  | some r =>
    match take4Digits r with
    | none => none
    | some (ys, rest) =>
      match stripPrefixCI "-set".data rest with
      | some r2 =>
        let ds := r2.takeWhile isDigit10
        if ds.isEmpty then some (ys, none) else some (ys, some ds)
      | none => some (ys, none)

/-- Unanchored leftmost search for the year-tag pattern. -/
def searchYearTag : List Char → Option (List Char × Option (List Char))
  | [] => none
  | c :: rest => matchYearTagHere (c :: rest) <|> searchYearTag rest

/-- Result of `parseYearTag` from `examUid.js`. -/
structure YearTag where
  year : Option String
  setNo : String
  deriving Repr, DecidableEq

/-- `parseYearTag` from `examUid.js`: a missing match yields
`{year: null, setNo: "1"}`. -/
def parseYearTag (yearTag : String) : YearTag :=
  match searchYearTag yearTag.data with
  | none => ⟨none, "1"⟩
  | some (ys, ms) => ⟨some (String.mk ys), normalizeSetNo (ms.map String.mk)⟩

/-- A match of `LINK_EXAM_PATTERN`
`gate-cse-(\d{4})(?:-set-(\d+))?-(ga-)?question-([^/?#]+)`. -/
structure LinkExamMatch where
  year : List Char
  setNo : Option (List Char)
  ga : Bool
  token : List Char
  deriving Repr, DecidableEq

/-- `question-([^/?#]+)`: the trailing question token, greedy and nonempty. -/
def matchQuestionToken (l : List Char) : Option (List Char) :=
  match stripPrefixCI "question-".data l with
  | none => none
  | some r =>
    let tok := r.takeWhile (fun c => !(c = '/' || c = '?' || c = '#'))
    if tok.isEmpty then none else some tok

/-- `(ga-)?question-([^/?#]+)` with backtracking over the optional group. -/
def matchGaQuestion (l : List Char) : Option (Bool × List Char) :=
  (match stripPrefixCI "ga-".data l with
   | some r => (matchQuestionToken r).map (fun t => (true, t))
   | none => none) <|>
  (matchQuestionToken l).map (fun t => (false, t))

/-- `(?:-set-(\d+))?-(ga-)?question-([^/?#]+)` after the year, with
backtracking from a failed with-set attempt to the without-set reading. -/
def matchLinkExamTail (rest : List Char) :
    Option (Option (List Char) × Bool × List Char) :=
  (match stripPrefixCI "-set-".data rest with
   | none => none
   | some r =>
     let ds := r.takeWhile isDigit10
     if ds.isEmpty then none
     else
       match r.drop ds.length with
       | '-' :: r2 => (matchGaQuestion r2).map (fun gt => (some ds, gt))
       | _ => none) <|>
  (match rest with
   | '-' :: r2 => (matchGaQuestion r2).map (fun gt => (none, gt))
   | _ => none)

/-- One attempt of `LINK_EXAM_PATTERN` at a fixed position. -/
def matchLinkExamHere (l : List Char) : Option LinkExamMatch :=
  match stripPrefixCI "gate-cse-".data l with
  | none => none
  | some r =>
    match take4Digits r with
    | none => none
    | some (ys, rest) =>
      (matchLinkExamTail rest).map (fun m => ⟨ys, m.1, m.2.1, m.2.2⟩)

/-- Unanchored leftmost search for `LINK_EXAM_PATTERN`. -/
def searchLinkExam : List Char → Option LinkExamMatch
  | [] => none
  | c :: rest => matchLinkExamHere (c :: rest) <|> searchLinkExam rest

/-- `.replace(/\/+$/, "")`: strip a trailing run of slashes. -/
def rtrimSlashes (l : List Char) : List Char :=
  (l.reverse.dropWhile (· = '/')).reverse

/-- `.split("/").at(-1)`: the final path segment. -/
def lastSegment (l : List Char) : List Char :=
  (l.reverse.takeWhile (· ≠ '/')).reverse

/-- `examUidFromLink` from `examUid.js`. -/
def examUidFromLink (link : String) (yearTag : String) : Option String :=
  let rawData := rtrimSlashes (jsTrim link).data
  if rawData = [] then none
  else
    match searchLinkExam (lastSegment rawData) with
    | none => none
    | some m =>
      let year := String.mk m.year
      let pyt := parseYearTag yearTag
      let setNo :=
        match m.setNo with
        | some ds => String.mk ds
        | none => if pyt.year = some year then pyt.setNo else "1"
      let sect := if m.ga then "ga" else "main"
      let questionToken := normalizeExamQuestionToken (String.mk m.token)
      if questionToken = "" then none
      else some (buildExamUid year (some setNo) sect questionToken)

/-- `[A-Za-z0-9]`. -/
def isAlnum (c : Char) : Bool :=
  (97 ≤ c.toNat && c.toNat ≤ 122) || (65 ≤ c.toNat && c.toNat ≤ 90) ||
    isDigit10 c

/-- `(?:-[A-Za-z0-9]+)*`, greedy: the consumed characters and the rest. -/
def dashAlnumStarF : Nat → List Char → List Char × List Char
  | 0, l => ([], l)
  | fuel + 1, l =>
    match l with
    | '-' :: rest =>
      let a := rest.takeWhile isAlnum
      if a.isEmpty then ([], '-' :: rest)
      else
        let p := dashAlnumStarF fuel (rest.drop a.length)
        ('-' :: a ++ p.1, p.2)
    | _ => ([], l)

/-- Each repetition consumes at least two characters, so `l.length` units of
fuel always suffice; the fuel never runs out on the recursive path. -/
def dashAlnumStar (l : List Char) : List Char × List Char :=
  dashAlnumStarF l.length l

/-- `([0-9]+(?:\.[0-9]+)?(?:-[A-Za-z0-9]+)*)`: the question-number group of
`TITLE_QUESTION_PATTERN`, returning the captured characters. -/
def parseNumGroup (l : List Char) : Option (List Char) :=
  let d1 := l.takeWhile isDigit10
  if d1.isEmpty then none
  else
    let r1 := l.drop d1.length
    let fr :=
      match r1 with
      | '.' :: rest =>
        let d2 := rest.takeWhile isDigit10
        if d2.isEmpty then (([] : List Char), r1)
        else ('.' :: d2, rest.drop d2.length)
      | _ => (([] : List Char), r1)
    some (d1 ++ fr.1 ++ (dashAlnumStar fr.2).1)

/-- `\s*[: ]\s*(number)` after the literal `Question`, with the regex
backtracking over the length of the first `\s*` (longest first). -/
def colonSplitAt (r : List Char) (k : Nat) : Option (List Char) :=
  match r.drop k with
  | c :: rest =>
    if c = ':' || c = ' ' then parseNumGroup (rest.dropWhile isJsWs)
    else none
  | [] => none

def colonSplitIter (r : List Char) : Nat → Option (List Char)
  | 0 => colonSplitAt r 0
  | k + 1 => colonSplitAt r (k + 1) <|> colonSplitIter r k

def colonSplit (r : List Char) : Option (List Char) :=
  colonSplitIter r (r.takeWhile isJsWs).length

/-- `Question\s*[: ]\s*(number)`. -/
def matchTitleQuestionCore (l : List Char) : Option (List Char) :=
  match stripPrefixCI "question".data l with
  | none => none
  | some r => colonSplit r

/-- One attempt of `TITLE_QUESTION_PATTERN`
`(GA\s+)?Question\s*[: ]\s*(...)` at a fixed position. -/
def matchTitleQuestionHere (l : List Char) : Option (Bool × List Char) :=
  (match stripPrefixCI "ga".data l with
   | some r0 =>
     let ws := r0.takeWhile isJsWs
     if ws.isEmpty then none
     else (matchTitleQuestionCore (r0.drop ws.length)).map (fun t => (true, t))
   | none => none) <|>
  (matchTitleQuestionCore l).map (fun t => (false, t))

/-- Unanchored leftmost search for `TITLE_QUESTION_PATTERN`. -/
def searchTitleQuestion : List Char → Option (Bool × List Char)
  | [] => none
  | c :: rest => matchTitleQuestionHere (c :: rest) <|> searchTitleQuestion rest

/-- One attempt of `TITLE_YEAR_PATTERN`
`GATE\s+CSE\s+(\d{4})(?:\s+Set\s*(\d+))?` at a fixed position.  (A maximal
`\s+` run followed by a literal starting with a non-whitespace character
needs no backtracking.) -/
def matchTitleYearHere (l : List Char) :
    Option (List Char × Option (List Char)) :=
  match stripPrefixCI "gate".data l with
  | none => none
  | some r0 =>
    let ws1 := r0.takeWhile isJsWs
    if ws1.isEmpty then none
    else
      match stripPrefixCI "cse".data (r0.drop ws1.length) with
      | none => none
      | some r1 =>
        let ws2 := r1.takeWhile isJsWs
        if ws2.isEmpty then none
        else
          match take4Digits (r1.drop ws2.length) with
          | none => none
          | some (ys, rest) =>
            let opt : Option (List Char) :=
              let ws3 := rest.takeWhile isJsWs
              if ws3.isEmpty then none
              else
                match stripPrefixCI "set".data (rest.drop ws3.length) with
                | none => none
                | some r2 =>
                  let ds := (r2.dropWhile isJsWs).takeWhile isDigit10
                  if ds.isEmpty then none else some ds
            some (ys, opt)

/-- Unanchored leftmost search for `TITLE_YEAR_PATTERN`. -/
def searchTitleYear : List Char → Option (List Char × Option (List Char))
  | [] => none
  | c :: rest => matchTitleYearHere (c :: rest) <|> searchTitleYear rest

/-- `examUidFromTitle` from `examUid.js`. -/
def examUidFromTitle (title : String) (yearTag : String) : Option String :=
  let rawTitle := jsTrim title
  if rawTitle = "" then none
  else
    let ytp := parseYearTag yearTag
    let yearSet : Option (String × String) :=
      match searchTitleYear rawTitle.data with
      | some (ys, ms) =>
        some (String.mk ys,
          normalizeSetNo (some (((ms.map String.mk)).getD ytp.setNo)))
      | none =>
        match ytp.year with
        | some y => some (y, ytp.setNo)
        | none => none
    match yearSet with
    | none => none
    | some (year, setNo) =>
      match searchTitleQuestion rawTitle.data with
      | none => none
      | some (ga, tok) =>
        let sect := if ga then "ga" else "main"
        let questionToken := normalizeExamQuestionToken (String.mk tok)
        if questionToken = "" then none
        else some (buildExamUid year (some setNo) sect questionToken)

/-- A raw or normalized question record.  Optional fields model absent JSON
keys; JS string truthiness is the `≠ ""` test on `Option.getD "" `. -/
structure Question where
  question_uid : Option String := none
  title : Option String := none
  question : Option String := none
  link : Option String := none
  tags : Option (List String) := none
  id_str : Option String := none
  volume : Option Int := none
  year : Option String := none
  exam_uid : Option String := none
  deriving Repr, DecidableEq

/-- `getExamUidFromQuestion` from `examUid.js`: an already-set (trimmed,
nonempty) `exam_uid` wins; else link-based, else title-based extraction. -/
def getExamUidFromQuestion (q : Question) : Option String :=
  let existing := jsTrim (q.exam_uid.getD "")
  if existing ≠ "" then some existing
  else
    let yearTag := jsTrim (q.year.getD "")
    (examUidFromLink (q.link.getD "") yearTag) <|>
      (examUidFromTitle (q.title.getD "") yearTag)

/-- UTF-16 code units of a character (`String.prototype.charCodeAt`). -/
def utf16CodeUnits (c : Char) : List Nat :=
  if c.toNat < 0x10000 then [c.toNat]
  else
    [0xD800 + (c.toNat - 0x10000) / 0x400, 0xDC00 + (c.toNat - 0x10000) % 0x400]

/-- The 32-bit FNV-1a loop of `QuestionService.hashString`: seed 2166136261,
`hash ^= c; hash = Math.imul(hash, 16777619)`, as unsigned arithmetic
mod `2 ^ 32`. -/
def fnv1aHash (value : String) : Nat :=
  (value.data.flatMap utf16CodeUnits).foldl
    (fun h c => ((h ^^^ c) * 16777619) % 2 ^ 32) 2166136261

/-- `(hash >>> 0).toString(16)`: lowercase hexadecimal, no padding. -/
def toHexString (n : Nat) : String := String.mk (Nat.toDigits 16 n)

/-- `QuestionService.hashString`. -/
def hashString (value : String) : String := toHexString (fnv1aHash value)

/-- `QuestionService.buildQuestionUid`: explicit uid verbatim, else
`go:<link id>`, else `local:<fnv1a hex>` of `"<title>||<body>||<link>"`. -/
def buildQuestionUid (q : Question) : String :=
  if q.question_uid.getD "" ≠ "" then q.question_uid.getD ""
  else
    match extractGateOverflowId (q.link.getD "") with
    | some goId => "go:" ++ goId
    | none =>
      "local:" ++ hashString
        ((q.title.getD "") ++ "||" ++ (q.question.getD "") ++ "||" ++
          (q.link.getD ""))

/-- `QuestionService.hasNativeJoinIdentity`. -/
def hasNativeJoinIdentity (q : Question) : Bool :=
  if jsTrim (q.question_uid.getD "") ≠ "" then true
  else if (extractGateOverflowId (q.link.getD "")).isSome then true
  else if q.id_str.isSome && q.volume.isSome &&
      jsTrim (q.id_str.getD "") ≠ "" then true
  else (getExamUidFromQuestion q).isSome

/-- The field-defaulting prefix of `QuestionService.normalizeQuestion`
(`normalized.title = normalized.title || ""`, and likewise for `question`,
`link` and `tags`). -/
def defaultFields (q : Question) : Question :=
  { q with
    title := some (q.title.getD "")
    question := some (q.question.getD "")
    link := some (q.link.getD "")
    tags := some (q.tags.getD []) }

/-- The `normalized.question_uid = this.buildQuestionUid(normalized)` step of
`QuestionService.normalizeQuestion`. -/
def withUid (q : Question) : Question :=
  { defaultFields q with
    question_uid := some (buildQuestionUid (defaultFields q)) }

/-- `QuestionService.normalizeQuestion`: default the text fields, then
assign `question_uid` and `exam_uid` (the latter `""` when underivable). -/
def normalizeQuestion (q : Question) : Question :=
  { withUid q with
    exam_uid := some ((getExamUidFromQuestion (withUid q)).getD "") }

/-- One fetched data candidate in `QuestionService.init`: `none` models an
unreachable source (`!response.ok`) or a non-array payload; `some payload`
models a parsed JSON array whose entries are `none` for non-object rows. -/
abbrev Candidate := Option (List (Option Question))

/-- `payload.filter(q => q && typeof q === "object")`. -/
def objectRows (payload : List (Option Question)) : List Question :=
  payload.filterMap id

/-- `joinReadyCount / objectRows.length`, the join-coverage score. -/
def joinCoverage (rows : List Question) : ℚ :=
  (rows.countP (fun q => hasNativeJoinIdentity q) : ℚ) / (rows.length : ℚ)

/-- The `bestCandidate` update of `QuestionService.init`: replace the best
seen so far exactly when the new candidate's coverage is strictly greater
(ties keep the earlier candidate). -/
def updateBest (best : Option (Nat × List Question)) (i : Nat)
    (rows : List Question) : Option (Nat × List Question) :=
  match best with
  | none => some (i, rows)
  | some (j, rs) =>
    if joinCoverage rs < joinCoverage rows then some (i, rows)
    else some (j, rs)

/-- The candidate-selection loop of `QuestionService.init`: skip unreachable,
empty or object-free candidates, keep the strictly best coverage seen so far,
and stop as soon as a candidate reaches coverage 1.  The result carries the
selected candidate's index and object rows; `none` models the thrown load
error. -/
def selectAux : Option (Nat × List Question) → Nat → List Candidate →
    Option (Nat × List Question)
  | best, _i, [] => best
  | best, i, c :: rest =>
    match c with
    | none => selectAux best (i + 1) rest
    | some payload =>
      if payload.isEmpty then selectAux best (i + 1) rest
      else
        let rows := objectRows payload
        if rows.isEmpty then selectAux best (i + 1) rest
        else if joinCoverage rows = 1 then updateBest best i rows
        else selectAux (updateBest best i rows) (i + 1) rest

/-- `QuestionService.init` up to the load error: the selected candidate, or
`none` when `init` throws `Failed to load questions`. -/
def selectCandidate (cands : List Candidate) : Option (Nat × List Question) :=
  selectAux none 0 cands

/-- Modelled from the spec: `buildUnsupportedUid` of the `AnswerService`,
whose implementation file is not in the sources (§4.2:
`"unsupported:<questionUid>"`). -/
def buildUnsupportedUid (questionUid : String) : String :=
  "unsupported:" ++ questionUid

/-- Modelled from the spec: `AnswerService.getAnswerUid` / `buildAnswerUid`
(§4.2: `"v<volume>:<id_str>"` when both are present; otherwise no uid).
The `AnswerService` implementation file is not in the sources; its unit
tests expect `getAnswerUid {volume: 2, id_str: "1.24.30"} = "v2:1.24.30"`. -/
def getAnswerUid (q : Question) : Option String :=
  match q.volume, q.id_str with
  | some v, some idStr => some ("v" ++ toString v ++ ":" ++ idStr)
  | _, _ => none

/-- Answer payload per answer `type` (§3, §9: a discriminated sum —
single letter; letter set; numeric point with optional absolute tolerance or
numeric range; none for the non-evaluable types). -/
inductive AnswerPayload where
  | mcq (letter : String)
  | msq (letters : List String)
  | natPoint (value : ℚ) (tolAbs : Option ℚ)
  | natRange (lo hi : ℚ)
  | noPayload
  deriving Repr, DecidableEq

/-- An answer record (§3): `type`, payload, and the answer-key uid. -/
structure AnswerRecord where
  type : String
  payload : AnswerPayload := .noPayload
  answer_uid : Option String := none
  deriving Repr, DecidableEq

/-- The three answer maps plus the unsupported registry (§6, and the test
fixtures `answersByQuestionUid` / `answersByUid` / `answersByExamUid` /
`unsupportedQuestionUids`), modelled as association lists. -/
structure AnswerCatalog where
  answersByQuestionUid : List (String × AnswerRecord) := []
  answersByUid : List (String × AnswerRecord) := []
  answersByExamUid : List (String × AnswerRecord) := []
  unsupportedQuestionUids : List String := []

/-- The synthetic record `{type: "UNSUPPORTED", answer_uid:
buildUnsupportedUid(questionUid)}` (§4.4 step 1). -/
def unsupportedRecord (questionUid : String) : AnswerRecord :=
  { type := "UNSUPPORTED", answer_uid := some (buildUnsupportedUid questionUid) }

/-- Modelled from the spec: `AnswerService.getAnswerForQuestion`, whose
implementation file is not in the sources (§4.4 priority order: unsupported
registry first, then the question-uid map, then the answer-uid map via
`volume`+`id_str`, then the exam-uid map; absence, not an error, when none
match). -/
def getAnswerForQuestion (cat : AnswerCatalog) (q : Question) :
    Option AnswerRecord :=
  let questionUid := buildQuestionUid q
  if cat.unsupportedQuestionUids.contains questionUid then
    some (unsupportedRecord questionUid)
  else
    match cat.answersByQuestionUid.lookup questionUid with
    | some r => some r
    | none =>
      match (getAnswerUid q).bind (fun u => cat.answersByUid.lookup u) with
      | some r => some r
      | none =>
        match (getExamUidFromQuestion q).bind
            (fun u => cat.answersByExamUid.lookup u) with
        | some r => some r
        | none => none

/-- The diagnostic identity view (§4.4). -/
structure QuestionIdentity where
  hasIdentity : Bool
  storageUid : String
  questionUid : Option String
  answerUid : Option String
  examUid : Option String
  reason : Option String
  deriving Repr, DecidableEq

/-- Modelled from the spec: `AnswerService.getQuestionIdentity`, whose
implementation file is not in the sources (§4.4: `storageUid` always falls
back to the local-hash uid; `questionUid` is only the join-usable,
non-local uid; `hasIdentity` iff any of the three attempted uids exists,
with reason `"missing_join_keys"` otherwise). -/
def getQuestionIdentity (q : Question) : QuestionIdentity :=
  let storageUid := buildQuestionUid q
  let questionUid :=
    if storageUid.data.take 6 = "local:".data then none else some storageUid
  let answerUid := getAnswerUid q
  let examUid := getExamUidFromQuestion q
  let has := questionUid.isSome || answerUid.isSome || examUid.isSome
  { hasIdentity := has
    storageUid := storageUid
    questionUid := questionUid
    answerUid := answerUid
    examUid := examUid
    reason := if has then none else some "missing_join_keys" }

/-- Modelled from the spec: `AnswerService.getStorageKeyForQuestion`, whose
implementation file is not in the sources (glossary: the storage uid always
exists, falling back to the content-hash uid). -/
def getStorageKeyForQuestion (q : Question) : String := buildQuestionUid q

/-- Modelled from the spec: `AnswerService.hasAnswer` (resolution
succeeds). -/
def hasAnswer (cat : AnswerCatalog) (q : Question) : Bool :=
  (getAnswerForQuestion cat q).isSome

/-- Exponent suffix of a JS numeric literal (`e`/`E`, optional sign,
digits); `some 0` when absent, `none` when malformed.  The whole rest of
the input must be consumed. -/
def parseExpPart (l : List Char) : Option Int :=
  let expDigits : List Char → Option Int := fun ds =>
    if !ds.isEmpty && ds.all isDigit10 then some (Int.ofNat (digitsToNat ds))
    else none
  match l with
  | [] => some 0
  | c :: rest =>
    if c = 'e' || c = 'E' then
      match rest with
      | '+' :: ds => expDigits ds
      | '-' :: ds => (expDigits ds).map (fun v => -v)
      | ds => expDigits ds
    else none

/-- The rational value of integer digits `d1`, fraction digits `d2` and a
decimal exponent `e` (kept in `Nat` casts so that concrete values reduce in
the kernel). -/
def decimalValue (d1 d2 : List Char) (e : Int) : ℚ :=
  let base : ℚ :=
    ((digitsToNat d1 * 10 ^ d2.length + digitsToNat d2 : ℕ) : ℚ) /
      ((10 ^ d2.length : ℕ) : ℚ)
  match e with
  | .ofNat n => base * ((10 ^ n : ℕ) : ℚ)
  | .negSucc n => base / ((10 ^ (n + 1) : ℕ) : ℚ)

/-- Unsigned decimal numeral: `digits`, `digits.digits`, `digits.`,
`.digits`, each with an optional exponent. -/
def parseUnsigned (l : List Char) : Option ℚ :=
  let d1 := l.takeWhile isDigit10
  let r1 := l.drop d1.length
  match r1 with
  | '.' :: rest =>
    let d2 := rest.takeWhile isDigit10
    let r2 := rest.drop d2.length
    if d1.isEmpty && d2.isEmpty then none
    else (parseExpPart r2).map (decimalValue d1 d2)
  | _ =>
    if d1.isEmpty then none
    else (parseExpPart r1).map (decimalValue d1 [])

/-- Modelled from the spec: the numeric parse of a NAT submission in
`evaluateAnswer`, whose implementation file is not in the sources (§4.5:
"must parse as a real number, else `invalid_input`"; §7: empty input is
invalid).  JS numbers are modelled as exact rationals. -/
def jsParseNumber (s : String) : Option ℚ :=
  let t := jsTrim s
  match t.data with
  | [] => none
  | '-' :: rest => (parseUnsigned rest).map (fun v => -v)
  | '+' :: rest => parseUnsigned rest
  | l => parseUnsigned l

/-- The structured evaluation result (§4.5): `correct` and
`status ∈ {"ok", "invalid_input"}`. -/
structure EvalResult where
  correct : Bool
  status : String
  deriving Repr, DecidableEq

/-- A user submission, per question type. -/
inductive Submission where
  | mcq (letter : String)
  | msq (letters : List String)
  | nat (text : String)
  deriving Repr, DecidableEq

/-- Modelled from the spec: `evaluateAnswer`, whose implementation file is
not in the sources (§4.5).  MCQ: single letter, case-insensitive equality,
empty is invalid.  MSQ: set equality of the letter sets, empty is invalid.
NAT: parse, then the closed tolerance interval around a point value
(`tolerance.abs` defaulting to 0) or the closed `[min, max]` range.
Non-evaluable payloads reject every submission. -/
def evaluateAnswer (ans : AnswerRecord) (sub : Submission) : EvalResult :=
  match ans.payload, sub with
  | .mcq a, .mcq s =>
    if s = "" then ⟨false, "invalid_input"⟩
    else ⟨s.toLower = a.toLower, "ok"⟩
  | .msq a, .msq s =>
    if s.isEmpty then ⟨false, "invalid_input"⟩
    else ⟨s.all (fun x => a.contains x) && a.all (fun x => s.contains x), "ok"⟩
  | .natPoint v tol, .nat s =>
    match jsParseNumber s with
    | none => ⟨false, "invalid_input"⟩
    | some x =>
      let t := tol.getD 0
      ⟨decide (v - t ≤ x ∧ x ≤ v + t), "ok"⟩
  | .natRange lo hi, .nat s =>
    match jsParseNumber s with
    | none => ⟨false, "invalid_input"⟩
    | some x => ⟨decide (lo ≤ x ∧ x ≤ hi), "ok"⟩
  | _, _ => ⟨false, "invalid_input"⟩

/-! ## Claim C7 -/

/-- Underscore-to-hyphen pre-replacement, used to state that separator
style does not affect token normalization. -/
def underscoreToHyphen (c : Char) : Char := if c = '_' then '-' else c

/-- Evaluation shorthand for a NAT point-value answer record. -/
def natPointEval (v : ℚ) (tol : Option ℚ) (s : String) : EvalResult :=
  evaluateAnswer { type := "NAT", payload := .natPoint v tol } (.nat s)

/-- Evaluation shorthand for a NAT range answer record. -/
def natRangeEval (lo hi : ℚ) (s : String) : EvalResult :=
  evaluateAnswer { type := "NAT", payload := .natRange lo hi } (.nat s)

/-- A candidate that the `init` loop skips entirely: unreachable or
non-array (`none`), or without any object row (covering the empty array). -/
def invalidCandidate (c : Candidate) : Prop :=
  c = none ∨ ∃ p, c = some p ∧ objectRows p = []

/-- C7: `buildExamUid(year, setNo, section, token)` returns
`"cse:<year>:set<setNo>:<section>:q<token>"`, with the set number normalized
to a positive integer string and defaulting to `"1"` for non-positive,
non-numeric or absent input; in particular
`buildExamUid(2025, 2, "main", "18") = "cse:2025:set2:main:q18"` and
`buildExamUid(2008, invalid, "main", "78") = "cse:2008:set1:main:q78"`. -/
theorem claim_buildExamUid_shape :
    (∀ (year sect tok : String) (raw : Option String),
      buildExamUid year raw sect tok =
        "cse:" ++ year ++ ":set" ++ normalizeSetNo raw ++ ":" ++ sect ++
          ":q" ++ tok) ∧
    (∀ raw : Option String, parseIntPrefix (jsTrim (raw.getD "")) = none →
      normalizeSetNo raw = "1") ∧
    (∀ (raw : Option String) (v : Int),
      parseIntPrefix (jsTrim (raw.getD "")) = some v → v ≤ 0 →
        normalizeSetNo raw = "1") ∧
    (∀ (raw : Option String) (v : Int),
      parseIntPrefix (jsTrim (raw.getD "")) = some v → 0 < v →
        normalizeSetNo raw = toString v) ∧
    buildExamUid "2025" (some "2") "main" "18" = "cse:2025:set2:main:q18" ∧
    buildExamUid "2008" none "main" "78" = "cse:2008:set1:main:q78" := by
  refine ⟨fun year sect tok raw => rfl, ?_, ?_, ?_, by decide, by decide⟩
  · intro raw h
    simp [normalizeSetNo, h]
  · intro raw v h hv
    simp [normalizeSetNo, h, hv]
  · intro raw v h hv
    simp [normalizeSetNo, h, not_le.mpr hv]

/-- Witness for C7 at concrete inputs: a non-numeric set, a non-positive
set, and a zero-padded positive set. -/
theorem claim_buildExamUid_shape_witness :
    normalizeSetNo (some "abc") = "1" ∧
    normalizeSetNo (some "-3") = "1" ∧
    normalizeSetNo (some "007") = toString (7 : Int) :=
  ⟨claim_buildExamUid_shape.2.1 (some "abc") (by decide),
   claim_buildExamUid_shape.2.2.1 (some "-3") (-3) (by decide) (by decide),
   claim_buildExamUid_shape.2.2.2.1 (some "007") 7 (by decide) (by decide)⟩

/-! ## Claim C4 -/

theorem isJsWs_underscoreToHyphen (c : Char) :
    isJsWs (underscoreToHyphen c) = isJsWs c := by
  by_cases h : c = '_'
  · subst h; decide
  · simp [underscoreToHyphen, h]

theorem dropWhile_eq_self_of_not {α : Type} (p : α → Bool) :
    ∀ l : List α, (∀ c ∈ l, p c = false) → l.dropWhile p = l := by
  intro l h
  induction l with
  | nil => rfl
  | cons a t ih =>
    rw [List.dropWhile_cons, h a (List.mem_cons_self a t)]
    simp

theorem dropWhile_map_comm {f : Char → Char} {p : Char → Bool}
    (hf : ∀ c, p (f c) = p c) :
    ∀ l : List Char, (l.map f).dropWhile p = (l.dropWhile p).map f := by
  intro l
  induction l with
  | nil => rfl
  | cons a t ih =>
    rw [List.map_cons, List.dropWhile_cons, List.dropWhile_cons, hf a]
    by_cases h : p a
    · simp [h, ih]
    · simp [h]

theorem ltrim_map_comm {f : Char → Char} (hf : ∀ c, isJsWs (f c) = isJsWs c)
    (l : List Char) : ltrim (l.map f) = (ltrim l).map f :=
  dropWhile_map_comm hf l

theorem rtrim_map_comm {f : Char → Char} (hf : ∀ c, isJsWs (f c) = isJsWs c)
    (l : List Char) : rtrim (l.map f) = (rtrim l).map f := by
  unfold rtrim
  rw [← List.map_reverse, dropWhile_map_comm hf, List.map_reverse]

theorem dashLower_underscoreToHyphen (c : Char) :
    dashToHyphen (Char.toLower (underscoreToHyphen c)) =
      dashToHyphen (Char.toLower c) := by
  by_cases h : c = '_'
  · subst h; decide
  · simp [underscoreToHyphen, h]

/-- Separator-style invariance: replacing every underscore by a hyphen
before normalizing does not change the normalized token. -/
theorem normalizeToken_underscore_invariant (s : String) :
    normalizeExamQuestionToken (String.mk (s.data.map underscoreToHyphen)) =
      normalizeExamQuestionToken s := by
  unfold normalizeExamQuestionToken
  have hws : ∀ c, isJsWs (underscoreToHyphen c) = isJsWs c :=
    isJsWs_underscoreToHyphen
  have hdata :
      (jsTrim (String.mk (s.data.map underscoreToHyphen))).data =
        (jsTrim s).data.map underscoreToHyphen := by
    simp only [jsTrim]
    rw [rtrim_map_comm hws, ltrim_map_comm hws]
  rw [hdata]
  have hmap :
      (((jsTrim s).data.map underscoreToHyphen).map Char.toLower).map
          dashToHyphen =
        ((jsTrim s).data.map Char.toLower).map dashToHyphen := by
    simp only [List.map_map]
    exact List.map_congr_left (fun c _ => dashLower_underscoreToHyphen c)
  rw [hmap]

theorem digit_not_ws {c : Char} (h : isDigit10 c = true) :
    isJsWs c = false := by
  simp only [isDigit10, Bool.and_eq_true, decide_eq_true_eq] at h
  by_contra hws
  rw [Bool.not_eq_false] at hws
  simp only [isJsWs, Bool.or_eq_true, decide_eq_true_eq] at hws
  rcases hws with (((((((h1 | h1) | h1) | h1) | h1) | h1) | h1) | h1) <;>
    (subst h1; exact absurd h (by decide))

theorem digit_toLower {c : Char} (h : isDigit10 c = true) :
    Char.toLower c = c := by
  simp only [isDigit10, Bool.and_eq_true, decide_eq_true_eq] at h
  unfold Char.toLower
  rw [if_neg]
  omega

theorem digit_dashToHyphen {c : Char} (h : isDigit10 c = true) :
    dashToHyphen c = c := by
  have h1 : c ≠ '_' := fun e => absurd h (by subst e; decide)
  have h2 : c ≠ '–' := fun e => absurd h (by subst e; decide)
  have h3 : c ≠ '—' := fun e => absurd h (by subst e; decide)
  simp [dashToHyphen, h1, h2, h3]

theorem digit_isTokenChar {c : Char} (h : isDigit10 c = true) :
    isTokenChar c = true := by
  simp [isTokenChar, h]

theorem digit_not_hyphen {c : Char} (h : isDigit10 c = true) : c ≠ '-' :=
  fun e => absurd h (by subst e; decide)

theorem digit_not_sep {c : Char} (h : isDigit10 c = true) :
    isSep c = false := by
  have h1 : c ≠ '.' := fun e => absurd h (by subst e; decide)
  have h2 : c ≠ '-' := fun e => absurd h (by subst e; decide)
  simp [isSep, h1, h2]

theorem collapseDisallowedAux_id {l : List Char}
    (h : ∀ c ∈ l, isTokenChar c = true) :
    ∀ b, collapseDisallowedAux b l = l := by
  induction l with
  | nil => intro b; rfl
  | cons a t ih =>
    intro b
    rw [collapseDisallowedAux, if_pos (h a (List.mem_cons_self a t))]
    rw [ih (fun c hc => h c (List.mem_cons_of_mem a hc))]

theorem collapseHyphensAux_id {l : List Char} (h : ∀ c ∈ l, c ≠ '-') :
    ∀ b, collapseHyphensAux b l = l := by
  induction l with
  | nil => intro b; rfl
  | cons a t ih =>
    intro b
    rw [collapseHyphensAux, if_neg]
    · rw [ih (fun c hc => h c (List.mem_cons_of_mem a hc))]
    · exact h a (List.mem_cons_self a t)

theorem stripSeps_id {l : List Char} (h : ∀ c ∈ l, isSep c = false) :
    stripSeps l = l := by
  unfold stripSeps
  rw [dropWhile_eq_self_of_not _ l h]
  rw [dropWhile_eq_self_of_not _ l.reverse
    (fun c hc => h c (List.mem_reverse.mp hc))]
  exact List.reverse_reverse l

theorem segMapAux_no_sep : ∀ (l acc : List Char),
    (∀ c ∈ l, isSep c = false) →
    segMapAux acc l = segTransform (acc.reverse ++ l) := by
  intro l
  induction l with
  | nil => intro acc _; simp [segMapAux]
  | cons a t ih =>
    intro acc h
    rw [segMapAux, if_neg]
    · rw [ih (a :: acc) (fun c hc => h c (List.mem_cons_of_mem a hc))]
      simp
    · simp [h a (List.mem_cons_self a t)]

theorem digitsToNat_cons_zero (ds : List Char) :
    digitsToNat ('0' :: ds) = digitsToNat ds := by
  simp [digitsToNat]

/-- An all-digit token normalizes to the (boundary-stripped) decimal
representation of its numeric value. -/
theorem normalizeToken_digits {ds : List Char} (hne : ds ≠ [])
    (hd : ∀ c ∈ ds, isDigit10 c = true) :
    normalizeExamQuestionToken (String.mk ds) =
      String.mk (stripSeps (Nat.repr (digitsToNat ds)).data) := by
  have hws : ∀ c ∈ ds, isJsWs c = false := fun c hc => digit_not_ws (hd c hc)
  have htrim : (jsTrim (String.mk ds)).data = ds := by
    simp only [jsTrim]
    rw [rtrim, dropWhile_eq_self_of_not _ ds.reverse
      (fun c hc => hws c (List.mem_reverse.mp hc)), List.reverse_reverse]
    exact dropWhile_eq_self_of_not _ ds hws
  unfold normalizeExamQuestionToken
  rw [htrim]
  have hlow : ds.map Char.toLower = ds := by
    have hmap : ds.map Char.toLower = ds.map id :=
      List.map_congr_left (fun c hc => digit_toLower (hd c hc))
    simpa using hmap
  have hdash : ds.map dashToHyphen = ds := by
    have hmap : ds.map dashToHyphen = ds.map id :=
      List.map_congr_left (fun c hc => digit_dashToHyphen (hd c hc))
    simpa using hmap
  rw [hlow, hdash]
  rw [collapseDisallowed,
    collapseDisallowedAux_id (fun c hc => digit_isTokenChar (hd c hc)) false]
  rw [collapseHyphens,
    collapseHyphensAux_id (fun c hc => digit_not_hyphen (hd c hc)) false]
  have hsep : ∀ c ∈ ds, isSep c = false := fun c hc => digit_not_sep (hd c hc)
  rw [stripSeps_id hsep]
  rw [if_neg (by simpa [List.isEmpty_iff] using hne)]
  rw [segMapAux_no_sep ds [] hsep]
  simp only [List.reverse_nil, List.nil_append]
  rw [segTransform, if_pos]
  simp only [Bool.and_eq_true, Bool.not_eq_eq_eq_not, Bool.not_false,
    List.all_eq_true]
  exact ⟨by simpa [List.isEmpty_iff] using hne, fun c hc => hd c hc⟩

/-- C4: token normalization strips leading zeros from numeric segments and
collapses separator style: `normalizeToken("078") = "78"`,
`normalizeToken("Q.01-a") = "q.1-a"`, underscores normalize like hyphens,
and a leading zero on an all-digit token does not change the result. -/
theorem claim_normalizeToken :
    normalizeExamQuestionToken "078" = "78" ∧
    normalizeExamQuestionToken "Q.01-a" = "q.1-a" ∧
    (∀ s : String,
      normalizeExamQuestionToken (String.mk (s.data.map underscoreToHyphen)) =
        normalizeExamQuestionToken s) ∧
    (∀ ds : List Char, ds ≠ [] → (∀ c ∈ ds, isDigit10 c = true) →
      normalizeExamQuestionToken (String.mk ('0' :: ds)) =
        normalizeExamQuestionToken (String.mk ds)) := by
  refine ⟨by decide, by decide, normalizeToken_underscore_invariant, ?_⟩
  intro ds hne hd
  rw [normalizeToken_digits (by simp) (by
    intro c hc
    rcases List.mem_cons.mp hc with h | h
    · subst h; decide
    · exact hd c h)]
  rw [normalizeToken_digits hne hd, digitsToNat_cons_zero]

/-- Witness for C4's universally quantified parts at concrete inputs. -/
theorem claim_normalizeToken_witness :
    normalizeExamQuestionToken (String.mk ("q_1".data.map underscoreToHyphen)) =
        normalizeExamQuestionToken "q_1" ∧
    normalizeExamQuestionToken (String.mk ('0' :: "78".data)) =
      normalizeExamQuestionToken (String.mk "78".data) :=
  ⟨claim_normalizeToken.2.2.1 "q_1",
   claim_normalizeToken.2.2.2 "78".data (by decide) (by decide)⟩

/-! ## Claim C3 -/

theorem fnv1aHash_lt (value : String) : fnv1aHash value < 2 ^ 32 := by
  unfold fnv1aHash
  have hgen : ∀ (l : List Nat) (h : Nat), h < 2 ^ 32 →
      l.foldl (fun h c => ((h ^^^ c) * 16777619) % 2 ^ 32) h < 2 ^ 32 := by
    intro l
    induction l with
    | nil => intro h hh; simpa using hh
    | cons a t ih =>
      intro h hh
      rw [List.foldl_cons]
      exact ih _ (Nat.mod_lt _ (by norm_num))
  exact hgen _ _ (by norm_num)

theorem toDigitsCore_chars (b : Nat) (P : Char → Prop) (hb : 0 < b)
    (hP : ∀ m, m < b → P (Nat.digitChar m)) :
    ∀ (fuel n : Nat) (acc : List Char), (∀ c ∈ acc, P c) →
      ∀ c ∈ Nat.toDigitsCore b fuel n acc, P c := by
  intro fuel
  induction fuel with
  | zero => intro n acc hacc c hc; exact hacc c hc
  | succ f ih =>
    intro n acc hacc c hc
    rw [Nat.toDigitsCore] at hc
    have hd : P (Nat.digitChar (n % b)) := hP _ (Nat.mod_lt _ hb)
    by_cases h : n / b = 0
    · rw [if_pos h] at hc
      rcases List.mem_cons.mp hc with h1 | h1
      · subst h1; exact hd
      · exact hacc c h1
    · rw [if_neg h] at hc
      refine ih _ _ ?_ c hc
      intro c' hc'
      rcases List.mem_cons.mp hc' with h1 | h1
      · subst h1; exact hd
      · exact hacc c' h1

/-- Every character of the hexadecimal rendering is a lowercase hex digit. -/
theorem toHexString_chars (n : Nat) :
    ∀ c ∈ (toHexString n).data, c ∈ "0123456789abcdef".data := by
  intro c hc
  refine toDigitsCore_chars 16 (fun c => c ∈ "0123456789abcdef".data)
    (by norm_num) ?_ (n + 1) n [] (by simp) c hc
  intro m hm
  interval_cases m <;> decide

/-- C3: `buildQuestionUid` applies the three-tier rule — explicit uid
verbatim, else `"go:<link id>"`, else `"local:<hex>"` where `<hex>` is the
lowercase-hex rendering of the unsigned 32-bit FNV-1a hash of
`"<title>||<body>||<link>"` with absent fields as empty strings. -/
theorem claim_buildQuestionUid_tiers :
    (∀ (q : Question) (u : String), q.question_uid = some u → u ≠ "" →
      buildQuestionUid q = u) ∧
    (∀ (q : Question) (gid : String), q.question_uid.getD "" = "" →
      extractGateOverflowId (q.link.getD "") = some gid →
      buildQuestionUid q = "go:" ++ gid) ∧
    (∀ q : Question, q.question_uid.getD "" = "" →
      extractGateOverflowId (q.link.getD "") = none →
      buildQuestionUid q = "local:" ++ toHexString (fnv1aHash
        ((q.title.getD "") ++ "||" ++ (q.question.getD "") ++ "||" ++
          (q.link.getD "")))) ∧
    (∀ s : String, fnv1aHash s < 2 ^ 32) ∧
    (∀ (s : String), ∀ c ∈ (hashString s).data, c ∈ "0123456789abcdef".data) ∧
    buildQuestionUid { title := some "Sample without keys" } =
      "local:219d4df9" := by
  refine ⟨?_, ?_, ?_, fnv1aHash_lt, fun s => toHexString_chars _, by decide⟩
  · intro q u hq hu
    rw [buildQuestionUid, if_pos (by simp [hq, hu])]
    simp [hq]
  · intro q gid hq hgo
    rw [buildQuestionUid, if_neg (by simp [hq])]
    rw [hgo]
  · intro q hq hgo
    rw [buildQuestionUid, if_neg (by simp [hq])]
    rw [hgo]
    rfl

/-- Witness for C3's three tiers at concrete records. -/
theorem claim_buildQuestionUid_tiers_witness :
    buildQuestionUid { question_uid := some "go:42" } = "go:42" ∧
    buildQuestionUid
        { link := some "https://gateoverflow.in/399311/gate-cse-2023-question-1" } =
      "go:" ++ "399311" ∧
    buildQuestionUid { title := some "T", question := some "B" } =
      "local:" ++ toHexString (fnv1aHash ("T" ++ "||" ++ "B" ++ "||" ++ "")) :=
  ⟨claim_buildQuestionUid_tiers.1 _ "go:42" rfl (by decide),
   claim_buildQuestionUid_tiers.2.1 _ "399311" rfl (by decide),
   claim_buildQuestionUid_tiers.2.2.1 _ rfl (by decide)⟩

/-! ## Claim C6 -/

/-- C6 counterexample: on a link whose final segment carries the GA marker,
the derived exam uid's section component is `"ga"`, not
`"general-aptitude"` as the claim states. -/
theorem claim_gaSection_counterexample :
    examUidFromLink
        "https://gateoverflow.in/123/gate-cse-2024-set-1-ga-question-5" "" =
      some "cse:2024:set1:ga:q5" ∧
    "cse:2024:set1:ga:q5" ≠ "cse:2024:set1:general-aptitude:q5" := by
  constructor
  · decide
  · decide

/-- C6 amended: the section component of every link-derived exam uid is
`"ga"` when the GA marker is present and `"main"` otherwise (section ranges
over `{main, ga}`). -/
theorem claim_gaSection_amended :
    (∀ link yearTag uid : String, examUidFromLink link yearTag = some uid →
      ∃ year setNo sect tok, (sect = "ga" ∨ sect = "main") ∧
        uid = "cse:" ++ year ++ ":set" ++ setNo ++ ":" ++ sect ++ ":q" ++
          tok) ∧
    examUidFromLink
        "https://gateoverflow.in/123/gate-cse-2024-set-1-ga-question-5" "" =
      some "cse:2024:set1:ga:q5" ∧
    examUidFromLink
        "https://gateoverflow.in/460817/gate-cse-2025-set-2-question-18" "" =
      some "cse:2025:set2:main:q18" := by
  refine ⟨?_, by decide, by decide⟩
  intro link yearTag uid h
  rw [examUidFromLink] at h
  simp only at h
  split at h
  · exact absurd h (by simp)
  · split at h
    · exact absurd h (by simp)
    · rename_i m heq
      split at h
      · exact absurd h (by simp)
      · rw [Option.some_inj] at h
        refine ⟨_, _, _, _, ?_, by rw [← h]; rfl⟩
        cases m.ga <;> simp

/-- Witness for the amended C6 at the GA-marked concrete link. -/
theorem claim_gaSection_amended_witness :
    ∃ year setNo sect tok, (sect = "ga" ∨ sect = "main") ∧
      "cse:2024:set1:ga:q5" = "cse:" ++ year ++ ":set" ++ setNo ++ ":" ++
        sect ++ ":q" ++ tok :=
  claim_gaSection_amended.1
    "https://gateoverflow.in/123/gate-cse-2024-set-1-ga-question-5" ""
    "cse:2024:set1:ga:q5" (by decide)

/-! ## Claim C2 -/

/-- C2: NAT evaluation — an unparseable submission yields
`invalid_input`; a parsed value against a point answer is correct iff it
lies in `[value - tolerance.abs, value + tolerance.abs]` (tolerance
defaulting to 0); against a range answer iff it lies in `[min, max]`;
and the spec's concrete examples for `{value: 5, tolerance: {abs: 0.5}}`. -/
theorem claim_natEvaluation :
    (∀ (v : ℚ) (tol : Option ℚ) (s : String), jsParseNumber s = none →
      natPointEval v tol s = ⟨false, "invalid_input"⟩) ∧
    (∀ (lo hi : ℚ) (s : String), jsParseNumber s = none →
      natRangeEval lo hi s = ⟨false, "invalid_input"⟩) ∧
    (∀ (v : ℚ) (tol : Option ℚ) (s : String) (x : ℚ),
      jsParseNumber s = some x →
      (natPointEval v tol s).status = "ok" ∧
      ((natPointEval v tol s).correct = true ↔
        v - tol.getD 0 ≤ x ∧ x ≤ v + tol.getD 0)) ∧
    (∀ (lo hi : ℚ) (s : String) (x : ℚ), jsParseNumber s = some x →
      (natRangeEval lo hi s).status = "ok" ∧
      ((natRangeEval lo hi s).correct = true ↔ lo ≤ x ∧ x ≤ hi)) ∧
    natPointEval 5 (some (1 / 2)) "5.3" = ⟨true, "ok"⟩ ∧
    natPointEval 5 (some (1 / 2)) "6" = ⟨false, "ok"⟩ ∧
    natPointEval 5 (some (1 / 2)) "abc" = ⟨false, "invalid_input"⟩ := by
  have h53 : jsParseNumber "5.3" = some (53 / 10 : ℚ) := by
    simp [jsParseNumber, jsTrim, ltrim, rtrim, isJsWs, parseUnsigned,
      parseExpPart, decimalValue, isDigit10, digitsToNat]
  have h6 : jsParseNumber "6" = some (6 : ℚ) := by
    simp [jsParseNumber, jsTrim, ltrim, rtrim, isJsWs, parseUnsigned,
      parseExpPart, decimalValue, isDigit10, digitsToNat]
  have habc : jsParseNumber "abc" = none := by
    simp [jsParseNumber, jsTrim, ltrim, rtrim, isJsWs, parseUnsigned,
      parseExpPart, decimalValue, isDigit10, digitsToNat]
  refine ⟨?_, ?_, ?_, ?_, ?_, ?_, ?_⟩
  · intro v tol s h
    simp [natPointEval, evaluateAnswer, h]
  · intro lo hi s h
    simp [natRangeEval, evaluateAnswer, h]
  · intro v tol s x h
    simp [natPointEval, evaluateAnswer, h]
  · intro lo hi s x h
    simp [natRangeEval, evaluateAnswer, h]
  · simp [natPointEval, evaluateAnswer, h53]
    norm_num
  · simp [natPointEval, evaluateAnswer, h6]
    norm_num
  · simp [natPointEval, evaluateAnswer, habc]

/-- Witness for C2's universally quantified parts at concrete inputs. -/
theorem claim_natEvaluation_witness :
    natPointEval 3 none "xyz" = ⟨false, "invalid_input"⟩ ∧
    natRangeEval 2 3 "" = ⟨false, "invalid_input"⟩ ∧
    ((natPointEval 3 none "3").status = "ok" ∧
      ((natPointEval 3 none "3").correct = true ↔
        (3 : ℚ) - (none : Option ℚ).getD 0 ≤ 3 ∧
          (3 : ℚ) ≤ 3 + (none : Option ℚ).getD 0)) ∧
    ((natRangeEval 2 3 "2.5").status = "ok" ∧
      ((natRangeEval 2 3 "2.5").correct = true ↔
        (2 : ℚ) ≤ 5 / 2 ∧ (5 / 2 : ℚ) ≤ 3)) := by
  have hx : jsParseNumber "xyz" = none := by
    simp [jsParseNumber, jsTrim, ltrim, rtrim, isJsWs, parseUnsigned,
      parseExpPart, decimalValue, isDigit10, digitsToNat]
  have he : jsParseNumber "" = none := by
    simp [jsParseNumber, jsTrim, ltrim, rtrim, isJsWs]
  have h3 : jsParseNumber "3" = some (3 : ℚ) := by
    simp [jsParseNumber, jsTrim, ltrim, rtrim, isJsWs, parseUnsigned,
      parseExpPart, decimalValue, isDigit10, digitsToNat]
  have h25 : jsParseNumber "2.5" = some (5 / 2 : ℚ) := by
    simp [jsParseNumber, jsTrim, ltrim, rtrim, isJsWs, parseUnsigned,
      parseExpPart, decimalValue, isDigit10, digitsToNat]
    norm_num
  exact ⟨claim_natEvaluation.1 3 none "xyz" hx,
    claim_natEvaluation.2.1 2 3 "" he,
    claim_natEvaluation.2.2.1 3 none "3" 3 h3,
    claim_natEvaluation.2.2.2.1 2 3 "2.5" (5 / 2) h25⟩

/-! ## Claim C1 -/

/-- C1: answer resolution follows the fixed priority order with first hit
winning — the unsupported registry overrides everything (including a real
entry in the question-uid map for the same uid), then the question-uid
map, then the answer-uid map via `volume`+`id_str`, then the exam-uid map;
when nothing matches the result is absence (`none`), not an error. -/
theorem claim_answerResolution (cat : AnswerCatalog) (q : Question) :
    (cat.unsupportedQuestionUids.contains (buildQuestionUid q) = true →
      getAnswerForQuestion cat q =
        some (unsupportedRecord (buildQuestionUid q))) ∧
    (∀ r, cat.unsupportedQuestionUids.contains (buildQuestionUid q) = false →
      cat.answersByQuestionUid.lookup (buildQuestionUid q) = some r →
      getAnswerForQuestion cat q = some r) ∧
    (∀ r, cat.unsupportedQuestionUids.contains (buildQuestionUid q) = false →
      cat.answersByQuestionUid.lookup (buildQuestionUid q) = none →
      (getAnswerUid q).bind (fun u => cat.answersByUid.lookup u) = some r →
      getAnswerForQuestion cat q = some r) ∧
    (∀ r, cat.unsupportedQuestionUids.contains (buildQuestionUid q) = false →
      cat.answersByQuestionUid.lookup (buildQuestionUid q) = none →
      (getAnswerUid q).bind (fun u => cat.answersByUid.lookup u) = none →
      (getExamUidFromQuestion q).bind
        (fun u => cat.answersByExamUid.lookup u) = some r →
      getAnswerForQuestion cat q = some r) ∧
    (cat.unsupportedQuestionUids.contains (buildQuestionUid q) = false →
      cat.answersByQuestionUid.lookup (buildQuestionUid q) = none →
      (getAnswerUid q).bind (fun u => cat.answersByUid.lookup u) = none →
      (getExamUidFromQuestion q).bind
        (fun u => cat.answersByExamUid.lookup u) = none →
      getAnswerForQuestion cat q = none) := by
  refine ⟨?_, ?_, ?_, ?_, ?_⟩
  · intro h
    simp at h
    simp [getAnswerForQuestion, h]
  · intro r h h1
    simp at h
    simp [getAnswerForQuestion, h, h1]
  · intro r h h1 h2
    simp at h
    simp [getAnswerForQuestion, h, h1, h2]
  · intro r h h1 h2 h3
    simp at h
    simp [getAnswerForQuestion, h, h1, h2, h3]
  · intro h h1 h2 h3
    simp at h
    simp [getAnswerForQuestion, h, h1, h2, h3]

/-- Witness for C1 on the unit-test fixtures: the unsupported override
beats a real question-uid entry; the three lookup tiers hit in order; and
an empty catalog resolves to absence. -/
theorem claim_answerResolution_witness :
    getAnswerForQuestion
        { unsupportedQuestionUids := ["go:401"],
          answersByQuestionUid :=
            [("go:401", { type := "MCQ", payload := .mcq "A" })] }
        { question_uid := some "go:401" } =
      some (unsupportedRecord "go:401") ∧
    getAnswerForQuestion
        { answersByQuestionUid := [("go:399311", { type := "MSQ" })] }
        { question_uid := some "go:399311" } =
      some { type := "MSQ" } ∧
    getAnswerForQuestion
        { answersByUid := [("v2:1.24.30", { type := "MCQ" })] }
        { volume := some 2, id_str := some "1.24.30" } =
      some { type := "MCQ" } ∧
    getAnswerForQuestion
        { answersByExamUid := [("cse:2008:set1:main:q78", { type := "MCQ" })] }
        { question_uid := some "go:497",
          link := some "https://gateoverflow.in/497/gate-cse-2008-question-78",
          title := some "GATE CSE 2008 | Question: 78",
          year := some "gatecse-2008" } =
      some { type := "MCQ" } ∧
    getAnswerForQuestion {} { question_uid := some "go:999999" } = none :=
  ⟨(claim_answerResolution _ _).1 (by decide),
   (claim_answerResolution _ _).2.1 _ (by decide) (by decide),
   (claim_answerResolution _ _).2.2.1 _ (by decide) (by decide) (by decide),
   (claim_answerResolution _ _).2.2.2.1 _ (by decide) (by decide) (by decide)
     (by decide),
   (claim_answerResolution _ _).2.2.2.2 (by decide) (by decide) (by decide)
     (by decide)⟩

/-! ## Claim C9 -/

theorem buildQuestionUid_local_of_no_keys {q : Question}
    (hq : q.question_uid.getD "" = "")
    (hlink : extractGateOverflowId (q.link.getD "") = none) :
    buildQuestionUid q = "local:" ++ hashString ((q.title.getD "") ++ "||" ++
      (q.question.getD "") ++ "||" ++ (q.link.getD "")) := by
  rw [buildQuestionUid, if_neg (by simp [hq]), hlink]

theorem take6_local (s : String) :
    ("local:" ++ s).data.take 6 = "local:".data := by
  rw [String.data_append]
  exact List.take_left "local:".data s.data

/-- C9: a record whose only derivable identifier is the local-hash uid
(no nonempty `question_uid`, no link-derived source id, no
`volume`+`id_str` answer uid, no derivable exam uid) reports
`hasIdentity = false` with reason `"missing_join_keys"`, while its storage
uid is still present and equal to the local-hash uid, so local progress
tracking (the storage key) remains available. -/
theorem claim_identity_localOnly (q : Question)
    (hq : q.question_uid.getD "" = "")
    (hlink : extractGateOverflowId (q.link.getD "") = none)
    (hvol : getAnswerUid q = none)
    (hexam : getExamUidFromQuestion q = none) :
    (getQuestionIdentity q).hasIdentity = false ∧
    (getQuestionIdentity q).reason = some "missing_join_keys" ∧
    (getQuestionIdentity q).storageUid =
      "local:" ++ hashString ((q.title.getD "") ++ "||" ++
        (q.question.getD "") ++ "||" ++ (q.link.getD "")) ∧
    getStorageKeyForQuestion q = (getQuestionIdentity q).storageUid := by
  have hloc := buildQuestionUid_local_of_no_keys hq hlink
  have htake : (buildQuestionUid q).data.take 6 = "local:".data := by
    rw [hloc]
    exact take6_local _
  refine ⟨?_, ?_, ?_, rfl⟩
  · simp [getQuestionIdentity, htake, hvol, hexam]
  · simp [getQuestionIdentity, htake, hvol, hexam]
  · simp [getQuestionIdentity, hloc]

/-- Witness for C9 on the unit-test record `{title: "Sample without
keys"}`. -/
theorem claim_identity_localOnly_witness :
    (getQuestionIdentity { title := some "Sample without keys" }).hasIdentity
        = false ∧
    (getQuestionIdentity { title := some "Sample without keys" }).reason =
      some "missing_join_keys" ∧
    (getQuestionIdentity { title := some "Sample without keys" }).storageUid =
      "local:" ++ hashString ("Sample without keys" ++ "||" ++ "" ++ "||" ++
        "") ∧
    getStorageKeyForQuestion { title := some "Sample without keys" } =
      (getQuestionIdentity { title := some "Sample without keys" }).storageUid :=
  claim_identity_localOnly _ rfl (by decide) rfl (by decide)

/-! ## Claim C5 -/

theorem takeWhile_all_append {p : Char → Bool} :
    ∀ (a : List Char), (∀ c ∈ a, p c = true) →
      ∀ (b : List Char) (c : Char), p c = false →
        (a ++ c :: b).takeWhile p = a := by
  intro a
  induction a with
  | nil => intro _ b c hc; simp [List.takeWhile_cons, hc]
  | cons x xs ih =>
    intro h b c hc
    rw [List.cons_append, List.takeWhile_cons]
    simp [h x (List.mem_cons_self x xs),
      ih (fun d hd => h d (List.mem_cons_of_mem x hd)) b c hc]

theorem digitsThenDelim_digits_slash {id slug : List Char} (hne : id ≠ [])
    (hd : ∀ c ∈ id, isDigit10 c = true) :
    digitsThenDelim (id ++ '/' :: slug) = some id := by
  have ht : (id ++ '/' :: slug).takeWhile isDigit10 = id :=
    takeWhile_all_append id hd slug '/' (by decide)
  simp only [digitsThenDelim, ht]
  rw [if_neg (by simpa [List.isEmpty_iff] using hne)]
  rw [List.drop_left]
  simp

theorem matchGoAbsHere_canonical {id slug : List Char} (hne : id ≠ [])
    (hd : ∀ c ∈ id, isDigit10 c = true) :
    matchGoAbsHere ("https://gateoverflow.in/".data ++ (id ++ '/' :: slug)) =
      some id := by
  have h1 : stripPrefixCI "https://".data
      ("https://gateoverflow.in/".data ++ (id ++ '/' :: slug)) =
      some ("gateoverflow.in/".data ++ (id ++ '/' :: slug)) := rfl
  have h2 : stripPrefixCI "www.".data
      ("gateoverflow.in/".data ++ (id ++ '/' :: slug)) = none := rfl
  have h3 : stripPrefixCI "gateoverflow.in/".data
      ("gateoverflow.in/".data ++ (id ++ '/' :: slug)) =
      some (id ++ '/' :: slug) := rfl
  simp only [matchGoAbsHere, afterGoScheme, tryGoHost, h1, h2, h3,
    digitsThenDelim_digits_slash hne hd, Option.none_orElse,
    Option.some_orElse]

theorem searchGoAbs_of_matchHere {l ds : List Char}
    (h : matchGoAbsHere l = some ds) (hne : l ≠ []) :
    searchGoAbs l = some ds := by
  cases l with
  | nil => exact absurd rfl hne
  | cons c rest =>
    rw [searchGoAbs, h]
    rfl

theorem dropWhile_append_cons {p : Char → Bool} :
    ∀ (a : List Char) {c : Char} (cs : List Char), p c = false →
      (a ++ c :: cs).dropWhile p = a.dropWhile p ++ c :: cs := by
  intro a
  induction a with
  | nil => intro c cs hc; simp [List.dropWhile_cons, hc]
  | cons x xs ih =>
    intro c cs hc
    rw [List.cons_append, List.dropWhile_cons, List.dropWhile_cons]
    by_cases hx : p x
    · simp only [hx]
      simp only [if_true]
      exact ih _ hc
    · simp [hx]

theorem jsTrim_canonical (id slug : List Char) :
    (jsTrim (String.mk
      ("https://gateoverflow.in/".data ++ (id ++ '/' :: slug)))).data =
      "https://gateoverflow.in/".data ++ (id ++ '/' :: rtrim slug) := by
  simp only [jsTrim]
  have h1 : rtrim ("https://gateoverflow.in/".data ++ (id ++ '/' :: slug)) =
      "https://gateoverflow.in/".data ++ (id ++ '/' :: rtrim slug) := by
    unfold rtrim
    rw [show ("https://gateoverflow.in/".data ++ (id ++ '/' :: slug)).reverse =
        slug.reverse ++ '/' ::
          (id.reverse ++ "https://gateoverflow.in/".data.reverse) by simp]
    rw [dropWhile_append_cons _ _ (by decide)]
    simp
  rw [h1]
  rw [show "https://gateoverflow.in/".data ++ (id ++ '/' :: rtrim slug) =
      'h' :: ("ttps://gateoverflow.in/".data ++ (id ++ '/' :: rtrim slug))
      from rfl]
  rw [show ltrim ('h' :: ("ttps://gateoverflow.in/".data ++
      (id ++ '/' :: rtrim slug))) =
      'h' :: ("ttps://gateoverflow.in/".data ++ (id ++ '/' :: rtrim slug)) by
    rw [ltrim, List.dropWhile_cons]
    rw [show isJsWs 'h' = false from by decide]
    simp]

theorem extract_canonical (id slug : List Char) (hne : id ≠ [])
    (hd : ∀ c ∈ id, isDigit10 c = true) :
    extractGateOverflowId
        (String.mk ("https://gateoverflow.in/".data ++ (id ++ '/' :: slug))) =
      some (String.mk id) := by
  simp only [extractGateOverflowId]
  have hdata := jsTrim_canonical id slug
  rw [if_neg (by
    intro he
    have hd2 := congrArg String.data he
    rw [hdata] at hd2
    simp at hd2)]
  rw [hdata]
  rw [searchGoAbs_of_matchHere (matchGoAbsHere_canonical hne hd) (by simp)]
  rfl



theorem toNat_ofNat_valid {m : Nat} (h : m.isValidChar) :
    (Char.ofNat m).toNat = m := by
  rw [Char.ofNat, dif_pos h]
  rfl

theorem toLower_toNat (c : Char) :
    (Char.toLower c).toNat =
      if 65 ≤ c.toNat ∧ c.toNat ≤ 90 then c.toNat + 32 else c.toNat := by
  unfold Char.toLower
  by_cases hc : 65 ≤ c.toNat ∧ c.toNat ≤ 90
  · rw [if_pos (by omega), if_pos hc]
    exact toNat_ofNat_valid (Or.inl (by omega))
  · rw [if_neg (by omega), if_neg hc]

theorem toLower_fixed_of {c t : Char} (ht : t.toNat < 97 ∨ 122 < t.toNat)
    (h : Char.toLower c = t) : c = t := by
  have hn := congrArg Char.toNat h
  rw [toLower_toNat] at hn
  by_cases hc : 65 ≤ c.toNat ∧ c.toNat ≤ 90
  · rw [if_pos hc] at hn
    omega
  · rw [if_neg hc] at hn
    calc c = Char.ofNat c.toNat := (Char.ofNat_toNat c).symm
    _ = Char.ofNat t.toNat := by rw [hn]
    _ = t := Char.ofNat_toNat t

theorem isDigit10_toLower (c : Char) :
    isDigit10 (Char.toLower c) = isDigit10 c := by
  simp only [isDigit10, toLower_toNat]
  by_cases hc : 65 ≤ c.toNat ∧ c.toNat ≤ 90
  · rw [if_pos hc]
    rw [Bool.eq_iff_iff]
    simp only [Bool.and_eq_true, decide_eq_true_eq]
    omega
  · rw [if_neg hc]

theorem takeWhile_map_comm {f : Char → Char} {p : Char → Bool}
    (hf : ∀ c, p (f c) = p c) :
    ∀ l : List Char, (l.map f).takeWhile p = (l.takeWhile p).map f := by
  intro l
  induction l with
  | nil => rfl
  | cons a t ih =>
    rw [List.map_cons, List.takeWhile_cons, List.takeWhile_cons, hf a]
    by_cases h : p a
    · simp [h, ih]
    · simp [h]

theorem orElse_eq_some_cases {α : Type} {a b : Option α} {d : α}
    (h : (a <|> b) = some d) : a = some d ∨ (a = none ∧ b = some d) := by
  cases a with
  | some v => left; simpa using h
  | none => right; exact ⟨rfl, by simpa using h⟩

theorem stripPrefixCI_map_toLower :
    ∀ {p l r : List Char}, stripPrefixCI p l = some r →
      l.map Char.toLower = p.map Char.toLower ++ r.map Char.toLower := by
  intro p
  induction p with
  | nil =>
    intro l r h
    simp only [stripPrefixCI, Option.some_inj] at h
    subst h
    simp
  | cons x xs ih =>
    intro l r h
    cases l with
    | nil => exact absurd h (by simp [stripPrefixCI])
    | cons c cs =>
      simp only [stripPrefixCI] at h
      by_cases hx : x.toLower = c.toLower
      · rw [if_pos hx] at h
        rw [List.map_cons, List.map_cons, ih h, hx]
        rfl
      · rw [if_neg hx] at h
        exact absurd h (by simp)

theorem tryGoHost_decomp {w ds : List Char} (h : tryGoHost w = some ds) :
    ∃ b r, w.map Char.toLower =
        b ++ "gateoverflow.in/".data ++ r.map Char.toLower ∧
      digitsThenDelim r = some ds := by
  unfold tryGoHost at h
  cases hs : stripPrefixCI "gateoverflow.in/".data w with
  | none => rw [hs] at h; exact absurd h (by simp)
  | some r =>
    rw [hs] at h
    refine ⟨[], r, ?_, h⟩
    rw [stripPrefixCI_map_toLower hs]
    rw [show "gateoverflow.in/".data.map Char.toLower =
      "gateoverflow.in/".data from by decide]
    simp

theorem afterGoScheme_decomp {l1 ds : List Char}
    (h : afterGoScheme l1 = some ds) :
    ∃ b r, l1.map Char.toLower =
        b ++ "gateoverflow.in/".data ++ r.map Char.toLower ∧
      digitsThenDelim r = some ds := by
  unfold afterGoScheme at h
  rcases orElse_eq_some_cases h with h1 | ⟨_, h2⟩
  · cases hs : stripPrefixCI "www.".data l1 with
    | none => rw [hs] at h1; exact absurd h1 (by simp)
    | some r =>
      rw [hs] at h1
      obtain ⟨b, rr, hb, hr⟩ := tryGoHost_decomp h1
      refine ⟨"www.".data ++ b, rr, ?_, hr⟩
      rw [stripPrefixCI_map_toLower hs]
      rw [show "www.".data.map Char.toLower = "www.".data from by decide]
      rw [hb]
      simp
  · exact tryGoHost_decomp h2

theorem matchGoAbsHere_decomp {l ds : List Char}
    (h : matchGoAbsHere l = some ds) :
    ∃ b r, l.map Char.toLower =
        b ++ "gateoverflow.in/".data ++ r.map Char.toLower ∧
      digitsThenDelim r = some ds := by
  unfold matchGoAbsHere at h
  rcases orElse_eq_some_cases h with h1 | ⟨_, h'⟩
  · cases hs : stripPrefixCI "https://".data l with
    | none => rw [hs] at h1; exact absurd h1 (by simp)
    | some r =>
      rw [hs] at h1
      obtain ⟨b, rr, hb, hr⟩ := afterGoScheme_decomp h1
      refine ⟨"https://".data ++ b, rr, ?_, hr⟩
      rw [stripPrefixCI_map_toLower hs]
      rw [show "https://".data.map Char.toLower = "https://".data from by decide]
      rw [hb]
      simp
  · rcases orElse_eq_some_cases h' with h2 | ⟨_, h3⟩
    · cases hs : stripPrefixCI "http://".data l with
      | none => rw [hs] at h2; exact absurd h2 (by simp)
      | some r =>
        rw [hs] at h2
        obtain ⟨b, rr, hb, hr⟩ := afterGoScheme_decomp h2
        refine ⟨"http://".data ++ b, rr, ?_, hr⟩
        rw [stripPrefixCI_map_toLower hs]
        rw [show "http://".data.map Char.toLower = "http://".data from by decide]
        rw [hb]
        simp
    · exact afterGoScheme_decomp h3

theorem searchGoAbs_decomp : ∀ {l ds : List Char}, searchGoAbs l = some ds →
    ∃ t u, l = t ++ u ∧ matchGoAbsHere u = some ds := by
  intro l
  induction l with
  | nil => intro ds h; exact absurd h (by simp [searchGoAbs])
  | cons c rest ih =>
    intro ds h
    rw [searchGoAbs] at h
    rcases orElse_eq_some_cases h with h1 | ⟨_, h2⟩
    · exact ⟨[], c :: rest, rfl, h1⟩
    · obtain ⟨t, u, ht, hu⟩ := ih h2
      exact ⟨c :: t, u, by rw [ht, List.cons_append], hu⟩



theorem host_position {b M W : List Char} (hW : '.' ∉ W)
    (hE : b ++ ("gateoverflow.in/".data ++ M) =
      "https://gateoverflow.in/".data ++ W) :
    b.length = 8 ∧ M = W := by
  have hdot : (b ++ ("gateoverflow.in/".data ++ M))[b.length + 12]? =
      some '.' := by
    rw [List.getElem?_append_right (by omega)]
    rw [show b.length + 12 - b.length = 12 from by omega]
    rw [List.getElem?_append_left (by decide)]
    decide
  rw [hE] at hdot
  have hlen : ("https://gateoverflow.in/".data).length = 24 := by decide
  have hb8 : b.length = 8 := by
    by_cases hlt : b.length + 12 < 24
    · have hP : ("https://gateoverflow.in/".data)[b.length + 12]? =
          some '.' := by
        rw [List.getElem?_append_left (by omega)] at hdot
        exact hdot
      have hdec : ∀ i, i < 24 →
          ("https://gateoverflow.in/".data)[i]? = some '.' → i = 20 := by
        decide
      have := hdec (b.length + 12) hlt hP
      omega
    · exfalso
      rw [List.getElem?_append_right (by omega)] at hdot
      exact hW (List.getElem?_mem hdot)
  refine ⟨hb8, ?_⟩
  have hdrop := congrArg (List.drop 8) hE
  rw [show ("https://gateoverflow.in/".data : List Char) =
    "https://".data ++ "gateoverflow.in/".data from by decide] at hdrop
  rw [List.append_assoc] at hdrop
  rw [List.drop_left' hb8, List.drop_left' (by decide)] at hdrop
  exact List.append_cancel_left hdrop

theorem dropWhile_head_false {p : Char → Bool} :
    ∀ {l : List Char} {c : Char} {cs : List Char},
      l.dropWhile p = c :: cs → p c = false := by
  intro l
  induction l with
  | nil => intro c cs h; simp at h
  | cons x xs ih =>
    intro c cs h
    rw [List.dropWhile_cons] at h
    by_cases hx : p x
    · rw [if_pos hx] at h
      exact ih h
    · rw [if_neg hx] at h
      cases h
      simpa using hx

theorem digitsThenDelim_seg_none {S R : List Char}
    (hnd : ¬ ∀ c ∈ S, isDigit10 c = true)
    (hdelim : ∀ c ∈ S, c ≠ '/' ∧ c ≠ '?' ∧ c ≠ '#') :
    digitsThenDelim (S ++ '/' :: R) = none := by
  have hsplit := List.takeWhile_append_dropWhile (p := isDigit10) (l := S)
  have hdw : S.dropWhile isDigit10 ≠ [] := by
    intro h0
    apply hnd
    intro c hc
    have hS : S.takeWhile isDigit10 = S := by
      conv_rhs => rw [← hsplit, h0, List.append_nil]
    have hc2 : c ∈ S.takeWhile isDigit10 := by rw [hS]; exact hc
    exact List.mem_takeWhile_imp hc2
  obtain ⟨c, S2, hcs⟩ : ∃ c S2, S.dropWhile isDigit10 = c :: S2 := by
    cases h : S.dropWhile isDigit10 with
    | nil => exact absurd h hdw
    | cons c S2 => exact ⟨c, S2, rfl⟩
  have hcd : isDigit10 c = false := dropWhile_head_false hcs
  have hcm : c ∈ S := by
    rw [← hsplit, hcs]
    exact List.mem_append_right _ (List.mem_cons_self c S2)
  have hform : S ++ '/' :: R =
      S.takeWhile isDigit10 ++ c :: (S2 ++ '/' :: R) := by
    conv_lhs => rw [← hsplit, hcs]
    simp
  rw [hform]
  have ht : (S.takeWhile isDigit10 ++ c :: (S2 ++ '/' :: R)).takeWhile
      isDigit10 = S.takeWhile isDigit10 :=
    takeWhile_all_append (S.takeWhile isDigit10)
      (fun d hd => List.mem_takeWhile_imp hd) (S2 ++ '/' :: R) c hcd
  simp only [digitsThenDelim, ht]
  by_cases he : (S.takeWhile isDigit10).isEmpty
  · rw [if_pos he]
  · rw [if_neg he]
    rw [List.drop_left]
    obtain ⟨h1, h2, h3⟩ := hdelim c hcm
    simp [h1, h2, h3]

theorem digitsThenDelim_map_toLower {r ds : List Char}
    (h : digitsThenDelim r = some ds) :
    digitsThenDelim (r.map Char.toLower) = some (ds.map Char.toLower) := by
  have hcomm : (r.map Char.toLower).takeWhile isDigit10 =
      (r.takeWhile isDigit10).map Char.toLower :=
    takeWhile_map_comm isDigit10_toLower r
  simp only [digitsThenDelim] at h ⊢
  rw [hcomm]
  by_cases he : (r.takeWhile isDigit10).isEmpty
  · rw [if_pos he] at h
    exact absurd h (by simp)
  · rw [if_neg he] at h
    rw [if_neg (by simpa [List.isEmpty_iff] using
      (by simpa [List.isEmpty_iff] using he : r.takeWhile isDigit10 ≠ []))]
    rw [List.length_map, ← List.map_drop]
    cases hdrop : r.drop (r.takeWhile isDigit10).length with
    | nil =>
      rw [hdrop] at h
      rw [Option.some_inj] at h
      subst h
      simp
    | cons c cs =>
      rw [hdrop] at h
      have h' : (if (decide (c = '/') || decide (c = '?') ||
          decide (c = '#')) = true
          then some (r.takeWhile isDigit10) else none) = some ds := h
      simp only [List.map_cons]
      show (if (decide (Char.toLower c = '/') || decide (Char.toLower c = '?') ||
          decide (Char.toLower c = '#')) = true
          then some ((r.takeWhile isDigit10).map Char.toLower) else none) =
        some (ds.map Char.toLower)
      by_cases hcond : (decide (c = '/') || decide (c = '?') ||
          decide (c = '#')) = true
      · rw [if_pos hcond] at h'
        rw [Option.some_inj] at h'
        subst h'
        have hcl : Char.toLower c = c := by
          simp only [Bool.or_eq_true, decide_eq_true_eq] at hcond
          rcases hcond with (hc | hc) | hc <;> (subst hc; decide)
        rw [hcl, if_pos hcond]
      · rw [if_neg hcond] at h'
        exact absurd h' (by simp)



theorem matchGoRel_h (x : List Char) : matchGoRel ('h' :: x) = none := by
  simp only [matchGoRel]
  rw [show (match ('h' :: x : List Char) with
      | '/' :: rest => digitsThenDelim rest
      | _ => none) = none from rfl]
  rw [show digitsThenDelim ('h' :: x) = none from by
    simp [digitsThenDelim, List.takeWhile_cons,
      (by decide : isDigit10 'h' = false)]]
  rfl

theorem mem_of_mem_dropWhile {p : Char → Bool} {c : Char} {l : List Char}
    (h : c ∈ l.dropWhile p) : c ∈ l := by
  have hsplit := List.takeWhile_append_dropWhile (p := p) (l := l)
  rw [← hsplit]
  exact List.mem_append_right _ h

theorem mem_of_mem_rtrim {c : Char} {l : List Char} (h : c ∈ rtrim l) :
    c ∈ l := by
  unfold rtrim at h
  rw [List.mem_reverse] at h
  have := mem_of_mem_dropWhile h
  rwa [List.mem_reverse] at this

theorem extract_nonNumeric_none (seg rest : List Char)
    (hnd : ¬ ∀ c ∈ seg, isDigit10 c = true)
    (hdelim : ∀ c ∈ seg, c ≠ '/' ∧ c ≠ '?' ∧ c ≠ '#')
    (hdot1 : '.' ∉ seg) (hdot2 : '.' ∉ rest) :
    extractGateOverflowId
        (String.mk ("https://gateoverflow.in/".data ++ (seg ++ '/' :: rest))) =
      none := by
  simp only [extractGateOverflowId]
  have hdata := jsTrim_canonical seg rest
  rw [if_neg (by
    intro he
    have hd2 := congrArg String.data he
    rw [hdata] at hd2
    simp at hd2)]
  rw [hdata]
  have hrel : matchGoRel
      ("https://gateoverflow.in/".data ++ (seg ++ '/' :: rtrim rest)) =
      none := by
    rw [show "https://gateoverflow.in/".data ++ (seg ++ '/' :: rtrim rest) =
        'h' :: ("ttps://gateoverflow.in/".data ++ (seg ++ '/' :: rtrim rest))
        from rfl]
    exact matchGoRel_h _
  have habs : searchGoAbs
      ("https://gateoverflow.in/".data ++ (seg ++ '/' :: rtrim rest)) =
      none := by
    cases hs : searchGoAbs
        ("https://gateoverflow.in/".data ++ (seg ++ '/' :: rtrim rest)) with
    | none => rfl
    | some ds =>
      exfalso
      obtain ⟨t, u, htu, hmatch⟩ := searchGoAbs_decomp hs
      obtain ⟨b, r, hmap, hddd⟩ := matchGoAbsHere_decomp hmatch
      have hE : (t.map Char.toLower ++ b) ++
          ("gateoverflow.in/".data ++ r.map Char.toLower) =
          "https://gateoverflow.in/".data ++
            (seg.map Char.toLower ++ '/' :: (rtrim rest).map Char.toLower) := by
        have hfull := congrArg (List.map Char.toLower) htu
        nth_rewrite 2 [List.map_append] at hfull
        rw [hmap] at hfull
        rw [List.map_append] at hfull
        rw [show ("https://gateoverflow.in/".data).map Char.toLower =
          "https://gateoverflow.in/".data from by decide] at hfull
        rw [show (seg ++ '/' :: rtrim rest).map Char.toLower =
            seg.map Char.toLower ++ '/' :: (rtrim rest).map Char.toLower from by
          rw [List.map_append, List.map_cons,
            show Char.toLower '/' = '/' from by decide]] at hfull
        simpa [List.append_assoc] using hfull.symm
      have hW : '.' ∉ seg.map Char.toLower ++ '/' :: (rtrim rest).map
          Char.toLower := by
        intro hmem
        rcases List.mem_append.mp hmem with hmem | hmem
        · obtain ⟨c, hc, hcl⟩ := List.mem_map.mp hmem
          exact hdot1 (toLower_fixed_of (by decide) hcl ▸ hc)
        · rcases List.mem_cons.mp hmem with hmem | hmem
          · exact absurd hmem.symm (by decide)
          · obtain ⟨c, hc, hcl⟩ := List.mem_map.mp hmem
            exact hdot2 (mem_of_mem_rtrim
              (toLower_fixed_of (by decide) hcl ▸ hc))
      obtain ⟨hb8, hM⟩ := host_position hW hE
      have hdddL := digitsThenDelim_map_toLower hddd
      rw [hM] at hdddL
      have hnone : digitsThenDelim (seg.map Char.toLower ++
          '/' :: (rtrim rest).map Char.toLower) = none := by
        apply digitsThenDelim_seg_none
        · intro hall
          apply hnd
          intro c hc
          have := hall (Char.toLower c) (List.mem_map_of_mem Char.toLower hc)
          rwa [isDigit10_toLower] at this
        · intro c' hc'
          obtain ⟨c, hc, hcl⟩ := List.mem_map.mp hc'
          obtain ⟨h1, h2, h3⟩ := hdelim c hc
          subst hcl
          refine ⟨?_, ?_, ?_⟩ <;> intro hcontra
          · exact h1 (toLower_fixed_of (by decide) hcontra)
          · exact h2 (toLower_fixed_of (by decide) hcontra)
          · exact h3 (toLower_fixed_of (by decide) hcontra)
      rw [hnone] at hdddL
      exact absurd hdddL (by simp)
  rw [habs, hrel]
  rfl

/-- C5: for every link `https://gateoverflow.in/<id>/<slug>` whose first
path segment `<id>` is numeric, `extractGateOverflowId` returns exactly
`<id>` as a string; for every link whose first path segment is non-numeric
(dot-free slug characters, as in `.../blog/17024/post`), it returns
absence. -/
theorem claim_extractSourceId :
    (∀ id slug : List Char, id ≠ [] → (∀ c ∈ id, isDigit10 c = true) →
      extractGateOverflowId (String.mk
        ("https://gateoverflow.in/".data ++ (id ++ '/' :: slug))) =
        some (String.mk id)) ∧
    (∀ seg rest : List Char, (¬ ∀ c ∈ seg, isDigit10 c = true) →
      (∀ c ∈ seg, c ≠ '/' ∧ c ≠ '?' ∧ c ≠ '#') → '.' ∉ seg → '.' ∉ rest →
      extractGateOverflowId (String.mk
        ("https://gateoverflow.in/".data ++ (seg ++ '/' :: rest))) = none) ∧
    extractGateOverflowId "https://gateoverflow.in/blog/17024/post" = none ∧
    extractGateOverflowId "https://gateoverflow.in/371497/sample-question" =
      some "371497" :=
  ⟨extract_canonical, extract_nonNumeric_none, by decide, by decide⟩

/-- Witness for C5 at a numeric and at a non-numeric first segment. -/
theorem claim_extractSourceId_witness :
    extractGateOverflowId (String.mk ("https://gateoverflow.in/".data ++
        ("123".data ++ '/' :: "slug".data))) = some (String.mk "123".data) ∧
    extractGateOverflowId (String.mk ("https://gateoverflow.in/".data ++
        ("blog".data ++ '/' :: "17024/post".data))) = none :=
  ⟨claim_extractSourceId.1 "123".data "slug".data (by decide) (by decide),
   claim_extractSourceId.2.1 "blog".data "17024/post".data (by decide)
     (by decide) (by decide) (by decide)⟩

theorem selectAux_nil (best : Option (Nat × List Question)) (i : Nat) :
    selectAux best i [] = best := rfl

theorem selectAux_cons_none (best : Option (Nat × List Question)) (i : Nat)
    (rest : List Candidate) :
    selectAux best i (none :: rest) = selectAux best (i + 1) rest := rfl

theorem selectAux_cons_some (best : Option (Nat × List Question)) (i : Nat)
    (payload : List (Option Question)) (rest : List Candidate) :
    selectAux best i (some payload :: rest) =
      if payload.isEmpty then selectAux best (i + 1) rest
      else if (objectRows payload).isEmpty then selectAux best (i + 1) rest
      else if joinCoverage (objectRows payload) = 1 then
        updateBest best i (objectRows payload)
      else selectAux (updateBest best i (objectRows payload)) (i + 1) rest :=
  rfl

theorem updateBest_isSome (best : Option (Nat × List Question)) (i : Nat)
    (rows : List Question) : (updateBest best i rows).isSome := by
  cases best with
  | none => simp [updateBest]
  | some b =>
    cases b with
    | mk j rs =>
      by_cases h : joinCoverage rs < joinCoverage rows <;>
        simp [updateBest, h]

theorem joinCoverage_le_one (rows : List Question) : joinCoverage rows ≤ 1 := by
  unfold joinCoverage
  rcases Nat.eq_zero_or_pos rows.length with h | h
  · rw [h]
    simp
  · rw [div_le_one (by exact_mod_cast h)]
    exact_mod_cast List.countP_le_length _

theorem isEmpty_objectRows_of_isEmpty {p : List (Option Question)}
    (h : p.isEmpty) : objectRows p = [] := by
  rw [List.isEmpty_iff.mp h]
  rfl

theorem selectAux_all_invalid :
    ∀ (cands : List Candidate) (best : Option (Nat × List Question)) (i : Nat),
      (∀ c ∈ cands, invalidCandidate c) → selectAux best i cands = best := by
  intro cands
  induction cands with
  | nil => intro best i _; rfl
  | cons c rest ih =>
    intro best i hall
    have hrest := fun d hd => hall d (List.mem_cons_of_mem c hd)
    rcases hall c (List.mem_cons_self c rest) with hc | ⟨p, hc, hp⟩
    · subst hc
      rw [selectAux_cons_none]
      exact ih best (i + 1) hrest
    · subst hc
      rw [selectAux_cons_some]
      by_cases hpe : p.isEmpty
      · rw [if_pos hpe]
        exact ih best (i + 1) hrest
      · rw [if_neg hpe, if_pos (by simpa [List.isEmpty_iff] using hp)]
        exact ih best (i + 1) hrest

theorem selectAux_isSome_of_best :
    ∀ (cands : List Candidate) (best : Option (Nat × List Question)) (i : Nat),
      best.isSome → (selectAux best i cands).isSome := by
  intro cands
  induction cands with
  | nil => intro best i h; exact h
  | cons c rest ih =>
    intro best i h
    cases c with
    | none =>
      rw [selectAux_cons_none]
      exact ih best (i + 1) h
    | some p =>
      rw [selectAux_cons_some]
      by_cases hpe : p.isEmpty
      · rw [if_pos hpe]; exact ih best (i + 1) h
      · rw [if_neg hpe]
        by_cases hre : (objectRows p).isEmpty
        · rw [if_pos hre]; exact ih best (i + 1) h
        · rw [if_neg hre]
          by_cases hcov : joinCoverage (objectRows p) = 1
          · rw [if_pos hcov]
            exact updateBest_isSome best i _
          · rw [if_neg hcov]
            exact ih _ (i + 1) (updateBest_isSome best i _)

theorem selectAux_some_of_valid :
    ∀ (cands : List Candidate) (best : Option (Nat × List Question)) (i : Nat),
      (∃ c ∈ cands, ¬ invalidCandidate c) →
      (selectAux best i cands).isSome := by
  intro cands
  induction cands with
  | nil =>
    intro best i h
    obtain ⟨c, hmem, _⟩ := h
    exact absurd hmem (List.not_mem_nil c)
  | cons c rest ih =>
    intro best i h
    obtain ⟨c', hmem, hval⟩ := h
    rcases List.mem_cons.mp hmem with he | hmem'
    · subst he
      cases c' with
      | none => exact absurd (Or.inl rfl) hval
      | some p =>
        by_cases hre : objectRows p = []
        · exact absurd (Or.inr ⟨p, rfl, hre⟩) hval
        · have hpe : ¬ p.isEmpty = true := by
            intro hp0
            exact hre (isEmpty_objectRows_of_isEmpty hp0)
          rw [selectAux_cons_some, if_neg hpe,
            if_neg (by simpa [List.isEmpty_iff] using hre)]
          by_cases hcov : joinCoverage (objectRows p) = 1
          · rw [if_pos hcov]
            exact updateBest_isSome best i _
          · rw [if_neg hcov]
            exact selectAux_isSome_of_best rest _ (i + 1)
              (updateBest_isSome best i _)
    · cases c with
      | none =>
        rw [selectAux_cons_none]
        exact ih best (i + 1) ⟨c', hmem', hval⟩
      | some p =>
        rw [selectAux_cons_some]
        by_cases hpe : p.isEmpty
        · rw [if_pos hpe]
          exact ih best (i + 1) ⟨c', hmem', hval⟩
        · rw [if_neg hpe]
          by_cases hre : (objectRows p).isEmpty
          · rw [if_pos hre]
            exact ih best (i + 1) ⟨c', hmem', hval⟩
          · rw [if_neg hre]
            by_cases hcov : joinCoverage (objectRows p) = 1
            · rw [if_pos hcov]
              exact updateBest_isSome best i _
            · rw [if_neg hcov]
              exact ih _ (i + 1) ⟨c', hmem', hval⟩

theorem selectAux_first_full :
    ∀ (cands : List Candidate) (best : Option (Nat × List Question))
      (i0 i : Nat) (p : List (Option Question)),
      (∀ j rs, best = some (j, rs) → joinCoverage rs ≠ 1) →
      cands[i]? = some (some p) →
      objectRows p ≠ [] →
      joinCoverage (objectRows p) = 1 →
      (∀ j, j < i → ∀ p', cands[j]? = some (some p') →
        objectRows p' = [] ∨ joinCoverage (objectRows p') ≠ 1) →
      selectAux best i0 cands = some (i0 + i, objectRows p) := by
  intro cands
  induction cands with
  | nil =>
    intro best i0 i p _ hidx
    simp at hidx
  | cons c rest ih =>
    intro best i0 i p hbest hidx hrows hcov hearlier
    cases i with
    | zero =>
      rw [List.getElem?_cons_zero, Option.some_inj] at hidx
      subst hidx
      have hpe : ¬ p.isEmpty = true := fun hp0 =>
        hrows (isEmpty_objectRows_of_isEmpty hp0)
      rw [selectAux_cons_some, if_neg hpe,
        if_neg (by simpa [List.isEmpty_iff] using hrows), if_pos hcov]
      cases best with
      | none => simp [updateBest]
      | some b =>
        cases b with
        | mk j rs =>
          have hne := hbest j rs rfl
          have hlt : joinCoverage rs < joinCoverage (objectRows p) := by
            rw [hcov]
            exact lt_of_le_of_ne (joinCoverage_le_one rs) hne
          simp [updateBest, hlt]
    | succ k =>
      rw [List.getElem?_cons_succ] at hidx
      have hearlier' : ∀ j, j < k → ∀ p', rest[j]? = some (some p') →
          objectRows p' = [] ∨ joinCoverage (objectRows p') ≠ 1 := by
        intro j hj p' hp'
        exact hearlier (j + 1) (by omega) p' (by rwa [List.getElem?_cons_succ])
      have harith : i0 + (k + 1) = (i0 + 1) + k := by omega
      cases c with
      | none =>
        rw [selectAux_cons_none, harith]
        exact ih best (i0 + 1) k p hbest hidx hrows hcov hearlier'
      | some p' =>
        rw [selectAux_cons_some]
        by_cases hpe : p'.isEmpty
        · rw [if_pos hpe, harith]
          exact ih best (i0 + 1) k p hbest hidx hrows hcov hearlier'
        · rw [if_neg hpe]
          by_cases hre : (objectRows p').isEmpty
          · rw [if_pos hre, harith]
            exact ih best (i0 + 1) k p hbest hidx hrows hcov hearlier'
          · rw [if_neg hre]
            have hcov' : joinCoverage (objectRows p') ≠ 1 := by
              rcases hearlier 0 (by omega) p' (by simp) with h0 | h0
              · exact absurd h0 (by simpa [List.isEmpty_iff] using hre)
              · exact h0
            rw [if_neg hcov', harith]
            refine ih _ (i0 + 1) k p ?_ hidx hrows hcov hearlier'
            intro j rs heq
            cases best with
            | none =>
              simp only [updateBest, Option.some_inj, Prod.mk.injEq] at heq
              rw [← heq.2]
              exact hcov'
            | some b =>
              cases b with
              | mk j0 rs0 =>
                by_cases hlt : joinCoverage rs0 < joinCoverage (objectRows p')
                · simp only [updateBest, if_pos hlt, Option.some_inj,
                    Prod.mk.injEq] at heq
                  rw [← heq.2]
                  exact hcov'
                · simp only [updateBest, if_neg hlt, Option.some_inj,
                    Prod.mk.injEq] at heq
                  rw [← heq.2]
                  exact hbest j0 rs0 rfl

theorem selectAux_argmax :
    ∀ (cands : List Candidate) (best : Option (Nat × List Question)) (i0 : Nat),
      (∀ (j : Nat) (p : List (Option Question)), cands[j]? = some (some p) →
        objectRows p = [] ∨ joinCoverage (objectRows p) ≠ 1) →
      (∀ j rs, best = some (j, rs) → j < i0) →
      ∀ i rows, selectAux best i0 cands = some (i, rows) →
        ((best = some (i, rows)) ∨
          (∃ p, i0 ≤ i ∧ cands[i - i0]? = some (some p) ∧
            rows = objectRows p ∧ objectRows p ≠ [])) ∧
        (∀ j rs, best = some (j, rs) →
          joinCoverage rs ≤ joinCoverage rows ∧
          (joinCoverage rs = joinCoverage rows → i ≤ j)) ∧
        (∀ j p, cands[j]? = some (some p) → objectRows p ≠ [] →
          joinCoverage (objectRows p) ≤ joinCoverage rows ∧
          (joinCoverage (objectRows p) = joinCoverage rows → i ≤ i0 + j)) := by
  intro cands
  induction cands with
  | nil =>
    intro best i0 _ _ i rows hres
    rw [selectAux_nil] at hres
    refine ⟨Or.inl hres, ?_, ?_⟩
    · intro j rs heq
      rw [hres] at heq
      rw [Option.some_inj, Prod.mk.injEq] at heq
      exact ⟨le_of_eq (by rw [heq.2]), fun _ => le_of_eq heq.1⟩
    · intro j p hj
      simp at hj
  | cons c rest ih =>
    intro best i0 hno hb i rows hres
    have hno' : ∀ (j : Nat) (p : List (Option Question)), rest[j]? = some (some p) →
        objectRows p = [] ∨ joinCoverage (objectRows p) ≠ 1 := by
      intro j p hj
      exact hno (j + 1) p (by rwa [List.getElem?_cons_succ])
    have hshift : ∀ (hres' : selectAux best (i0 + 1) rest = some (i, rows))
        (hinv : ∀ p, c = some p → objectRows p = []),
        ((best = some (i, rows)) ∨
          (∃ p, i0 ≤ i ∧ (c :: rest)[i - i0]? = some (some p) ∧
            rows = objectRows p ∧ objectRows p ≠ [])) ∧
        (∀ j rs, best = some (j, rs) →
          joinCoverage rs ≤ joinCoverage rows ∧
          (joinCoverage rs = joinCoverage rows → i ≤ j)) ∧
        (∀ (j : Nat) (p : List (Option Question)),
          (c :: rest)[j]? = some (some p) → objectRows p ≠ [] →
          joinCoverage (objectRows p) ≤ joinCoverage rows ∧
          (joinCoverage (objectRows p) = joinCoverage rows → i ≤ i0 + j)) := by
      intro hres' hinv
      obtain ⟨hsrc, hdomb, hdome⟩ := ih best (i0 + 1) hno'
        (fun j rs heq => Nat.lt_succ_of_lt (hb j rs heq)) i rows hres'
      refine ⟨?_, hdomb, ?_⟩
      · rcases hsrc with hsrc | ⟨p, hle, hidx, hrw, hrne⟩
        · exact Or.inl hsrc
        · refine Or.inr ⟨p, by omega, ?_, hrw, hrne⟩
          rw [show i - i0 = (i - (i0 + 1)) + 1 from by omega]
          rwa [List.getElem?_cons_succ]
      · intro j p hj hpne
        cases j with
        | zero =>
          rw [List.getElem?_cons_zero, Option.some_inj] at hj
          exact absurd (hinv p hj) hpne
        | succ k =>
          rw [List.getElem?_cons_succ] at hj
          obtain ⟨hle, htie⟩ := hdome k p hj hpne
          exact ⟨hle, fun he => by have := htie he; omega⟩
    cases c with
    | none =>
      rw [selectAux_cons_none] at hres
      exact hshift hres (fun p hp => by simp at hp)
    | some payload =>
      rw [selectAux_cons_some] at hres
      by_cases hpe : payload.isEmpty
      · rw [if_pos hpe] at hres
        exact hshift hres (fun p hp => by
          rw [Option.some_inj] at hp
          rw [← hp]
          exact isEmpty_objectRows_of_isEmpty hpe)
      · rw [if_neg hpe] at hres
        by_cases hre : (objectRows payload).isEmpty
        · rw [if_pos hre] at hres
          exact hshift hres (fun p hp => by
            rw [Option.some_inj] at hp
            rw [← hp]
            exact List.isEmpty_iff.mp hre)
        · rw [if_neg hre] at hres
          have hrne : objectRows payload ≠ [] := by
            simpa [List.isEmpty_iff] using hre
          have hcovne : joinCoverage (objectRows payload) ≠ 1 := by
            rcases hno 0 payload (by simp) with h0 | h0
            · exact absurd h0 hrne
            · exact h0
          rw [if_neg hcovne] at hres
          have hb' : ∀ j rs, updateBest best i0 (objectRows payload) =
              some (j, rs) → j < i0 + 1 := by
            intro j rs heq
            cases best with
            | none =>
              simp only [updateBest, Option.some_inj, Prod.mk.injEq] at heq
              omega
            | some b =>
              cases b with
              | mk j0 rs0 =>
                by_cases hlt : joinCoverage rs0 <
                    joinCoverage (objectRows payload)
                · simp only [updateBest, if_pos hlt, Option.some_inj,
                    Prod.mk.injEq] at heq
                  omega
                · simp only [updateBest, if_neg hlt, Option.some_inj,
                    Prod.mk.injEq] at heq
                  have := hb j0 rs0 rfl
                  omega
          obtain ⟨hsrc, hdomb, hdome⟩ := ih (updateBest best i0
            (objectRows payload)) (i0 + 1) hno' hb' i rows hres
          -- facts about updateBest by cases on best
          refine ⟨?_, ?_, ?_⟩
          · -- source
            rcases hsrc with hsrc | ⟨p, hle, hidx, hrw, hrne'⟩
            · cases best with
              | none =>
                simp only [updateBest] at hsrc
                rw [Option.some_inj, Prod.mk.injEq] at hsrc
                refine Or.inr ⟨payload, le_of_eq hsrc.1, ?_, hsrc.2.symm, hrne⟩
                rw [show i - i0 = 0 from by omega]
                simp
              | some b =>
                cases b with
                | mk j0 rs0 =>
                  by_cases hlt : joinCoverage rs0 <
                      joinCoverage (objectRows payload)
                  · simp only [updateBest, if_pos hlt] at hsrc
                    rw [Option.some_inj, Prod.mk.injEq] at hsrc
                    refine Or.inr ⟨payload, le_of_eq hsrc.1, ?_, hsrc.2.symm,
                      hrne⟩
                    rw [show i - i0 = 0 from by omega]
                    simp
                  · simp only [updateBest, if_neg hlt] at hsrc
                    exact Or.inl hsrc
            · refine Or.inr ⟨p, by omega, ?_, hrw, hrne'⟩
              rw [show i - i0 = (i - (i0 + 1)) + 1 from by omega]
              rwa [List.getElem?_cons_succ]
          · -- dominate best
            intro j rs heq
            subst heq
            by_cases hlt : joinCoverage rs < joinCoverage (objectRows payload)
            · have hupd : updateBest (some (j, rs)) i0 (objectRows payload) =
                  some (i0, objectRows payload) := by
                simp [updateBest, hlt]
              obtain ⟨hcle, hctie⟩ := hdomb i0 (objectRows payload) hupd
              refine ⟨le_trans (le_of_lt hlt) hcle, ?_⟩
              intro he
              exfalso
              have h1 := lt_of_lt_of_le hlt hcle
              rw [he] at h1
              exact lt_irrefl _ h1
            · have hupd : updateBest (some (j, rs)) i0 (objectRows payload) =
                  some (j, rs) := by
                simp [updateBest, hlt]
              exact hdomb j rs hupd
          · -- dominate entries
            intro j p hj hpne
            cases j with
            | zero =>
              rw [List.getElem?_cons_zero, Option.some_inj,
                Option.some_inj] at hj
              subst hj
              cases best with
              | none =>
                have hupd : updateBest none i0 (objectRows payload) =
                    some (i0, objectRows payload) := by
                  simp [updateBest]
                obtain ⟨hcle, hctie⟩ := hdomb i0 (objectRows payload) hupd
                exact ⟨hcle, fun he => by have := hctie he; omega⟩
              | some b =>
                cases b with
                | mk j0 rs0 =>
                  by_cases hlt : joinCoverage rs0 < joinCoverage (objectRows payload)
                  · have hupd : updateBest (some (j0, rs0)) i0 (objectRows payload) =
                        some (i0, objectRows payload) := by
                      simp [updateBest, hlt]
                    obtain ⟨hcle, hctie⟩ := hdomb i0 (objectRows payload) hupd
                    exact ⟨hcle, fun he => by have := hctie he; omega⟩
                  · have hupd : updateBest (some (j0, rs0)) i0 (objectRows payload) =
                        some (j0, rs0) := by
                      simp [updateBest, hlt]
                    obtain ⟨hcle, hctie⟩ := hdomb j0 rs0 hupd
                    have hcc : joinCoverage (objectRows payload) ≤ joinCoverage rs0 :=
                      not_lt.mp hlt
                    refine ⟨le_trans hcc hcle, ?_⟩
                    intro he
                    have heq0 : joinCoverage rs0 = joinCoverage rows :=
                      le_antisymm hcle (he ▸ hcc)
                    have hij0 := hctie heq0
                    have hj0i0 := hb j0 rs0 rfl
                    omega
            | succ k =>
              rw [List.getElem?_cons_succ] at hj
              obtain ⟨hle, htie⟩ := hdome k p hj hpne
              exact ⟨hle, fun he => by have := htie he; omega⟩

/-- **C8.** Candidate selection in `QuestionService.init`: (a) the load error
(`Failed to load questions`) is signalled exactly when every candidate is
unreachable, a non-array, or free of object rows; (b) the first candidate (in
preference order) whose object rows reach join coverage 1 is selected, the scan
stopping there regardless of later candidates; (c) when no candidate reaches
coverage 1, the selected candidate is a valid one whose join coverage — the
fraction of its object rows carrying a native join identity — is maximal among
all valid candidates, with ties going to the earlier candidate. -/
theorem claim_candidateSelection (cands : List Candidate) :
    (selectCandidate cands = none ↔ ∀ c ∈ cands, invalidCandidate c) ∧
    (∀ (i : Nat) (p : List (Option Question)),
      cands[i]? = some (some p) → objectRows p ≠ [] →
      joinCoverage (objectRows p) = 1 →
      (∀ j, j < i → ∀ p', cands[j]? = some (some p') →
        objectRows p' = [] ∨ joinCoverage (objectRows p') ≠ 1) →
      selectCandidate cands = some (i, objectRows p)) ∧
    (∀ (i : Nat) (rows : List Question),
      (∀ (j : Nat) (p : List (Option Question)), cands[j]? = some (some p) →
        objectRows p = [] ∨ joinCoverage (objectRows p) ≠ 1) →
      selectCandidate cands = some (i, rows) →
      (∃ p, cands[i]? = some (some p) ∧ rows = objectRows p ∧
        objectRows p ≠ []) ∧
      (∀ (j : Nat) (p : List (Option Question)),
        cands[j]? = some (some p) → objectRows p ≠ [] →
        joinCoverage (objectRows p) ≤ joinCoverage rows ∧
        (joinCoverage (objectRows p) = joinCoverage rows → i ≤ j))) := by
  refine ⟨⟨?_, ?_⟩, ?_, ?_⟩
  · intro h
    by_contra hno
    push_neg at hno
    obtain ⟨c, hc, hcv⟩ := hno
    have hsome := selectAux_some_of_valid cands none 0 ⟨c, hc, hcv⟩
    rw [show selectAux none 0 cands = selectCandidate cands from rfl, h]
      at hsome
    simp at hsome
  · intro h
    exact selectAux_all_invalid cands none 0 h
  · intro i p hp hne hcov hearlier
    have := selectAux_first_full cands none 0 i p
      (fun j rs h => by simp at h) hp hne hcov hearlier
    simpa [selectCandidate] using this
  · intro i rows hno hres
    obtain ⟨hsrc, _, hdome⟩ := selectAux_argmax cands none 0 hno
      (fun j rs h => by simp at h) i rows hres
    refine ⟨?_, ?_⟩
    · rcases hsrc with h | ⟨q, _, hidx, hrw, hne⟩
      · simp at h
      · exact ⟨q, by simpa using hidx, hrw, hne⟩
    · intro j q hj hqne
      have := hdome j q hj hqne
      simpa using this

/-- **C8 witness.** On the concrete candidate list whose third entry is a
single-row array with `question_uid = "go:1"` (full coverage), the loop picks
index 2; on a list of only unreachable/empty candidates the loop fails. -/
theorem claim_candidateSelection_witness :
    selectCandidate
        ([none, some [], some [some { question_uid := some "go:1" }]] :
          List Candidate) =
      some (2, objectRows [some { question_uid := some "go:1" }]) ∧
    selectCandidate ([none, some []] : List Candidate) = none := by
  constructor
  · refine (claim_candidateSelection _).2.1 2 _ rfl (List.cons_ne_nil _ _)
      ?_ ?_
    · have h1 : (objectRows
          [some ({ question_uid := some "go:1" } : Question)]).countP
          (fun q => hasNativeJoinIdentity q) = 1 := by decide
      have h2 : (objectRows
          [some ({ question_uid := some "go:1" } : Question)]).length = 1 :=
        rfl
      unfold joinCoverage
      rw [h1, h2]
      norm_num
    · intro j hj p' hp'
      interval_cases j
      · simp at hp'
      · have hp0 : p' = [] := by simpa using hp'.symm
        subst hp0
        exact Or.inl rfl
  · refine (claim_candidateSelection _).1.mpr ?_
    intro c hc
    rcases List.mem_cons.mp hc with rfl | hc
    · exact Or.inl rfl
    · rcases List.mem_cons.mp hc with rfl | hc
      · exact Or.inr ⟨[], rfl, rfl⟩
      · simp at hc

theorem dropWhile_eq_self_of_head {p : Char → Bool} :
    ∀ l : List Char, (∀ c, l.head? = some c → p c = false) →
      l.dropWhile p = l := by
  intro l h
  cases l with
  | nil => rfl
  | cons a t =>
    rw [List.dropWhile_cons, h a rfl]
    simp

theorem head_dropWhile_false {p : Char → Bool} :
    ∀ (l : List Char) (c : Char), (l.dropWhile p).head? = some c →
      p c = false := by
  intro l
  induction l with
  | nil => intro c hc; simp at hc
  | cons a t ih =>
    intro c hc
    rw [List.dropWhile_cons] at hc
    by_cases hp : p a
    · rw [if_pos hp] at hc
      exact ih c hc
    · rw [if_neg hp] at hc
      simp only [List.head?_cons, Option.some_inj] at hc
      subst hc
      simpa using hp

theorem getLast_dropWhile {p : Char → Bool} :
    ∀ l : List Char, l.dropWhile p ≠ [] →
      (l.dropWhile p).getLast? = l.getLast? := by
  intro l
  induction l with
  | nil => intro h; simp at h
  | cons a t ih =>
    intro h
    rw [List.dropWhile_cons] at h ⊢
    by_cases hp : p a
    · rw [if_pos hp] at h ⊢
      have ht : t ≠ [] := by
        intro he
        rw [he] at h
        simp at h
      rw [ih h]
      cases t with
      | nil => exact absurd rfl ht
      | cons b t' => rw [List.getLast?_cons_cons]
    · rw [if_neg hp]

theorem jsTrim_head_false (s : String) (c : Char)
    (h : (jsTrim s).data.head? = some c) : isJsWs c = false :=
  head_dropWhile_false (rtrim s.data) c h

theorem jsTrim_getLast_false (s : String) (c : Char)
    (h : (jsTrim s).data.getLast? = some c) : isJsWs c = false := by
  have hne : ltrim (rtrim s.data) ≠ [] := by
    intro he
    rw [show (jsTrim s).data = ltrim (rtrim s.data) from rfl, he] at h
    simp at h
  have h1 : (jsTrim s).data.getLast? = (rtrim s.data).getLast? :=
    getLast_dropWhile (rtrim s.data) hne
  rw [h1] at h
  rw [show rtrim s.data =
    ((s.data.reverse).dropWhile isJsWs).reverse from rfl] at h
  rw [List.getLast?_reverse] at h
  exact head_dropWhile_false (s.data.reverse) c h

theorem jsTrim_eq_self_of (s : String)
    (h1 : ∀ c, s.data.head? = some c → isJsWs c = false)
    (h2 : ∀ c, s.data.getLast? = some c → isJsWs c = false) :
    jsTrim s = s := by
  have hr : rtrim s.data = s.data := by
    rw [show rtrim s.data =
      ((s.data.reverse).dropWhile isJsWs).reverse from rfl]
    rw [dropWhile_eq_self_of_head s.data.reverse
      (fun c hc => h2 c (by rwa [List.head?_reverse] at hc))]
    exact List.reverse_reverse _
  rw [show jsTrim s = String.mk (ltrim (rtrim s.data)) from rfl, hr]
  rw [show ltrim s.data = s.data.dropWhile isJsWs from rfl]
  rw [dropWhile_eq_self_of_head s.data h1]

theorem jsTrim_idem (s : String) : jsTrim (jsTrim s) = jsTrim s :=
  jsTrim_eq_self_of (jsTrim s) (jsTrim_head_false s) (jsTrim_getLast_false s)

theorem ws_toNat {c : Char} (h : isJsWs c = true) :
    c.toNat = 32 ∨ c.toNat = 9 ∨ c.toNat = 10 ∨ c.toNat = 13 ∨
    c.toNat = 11 ∨ c.toNat = 12 ∨ c.toNat = 160 ∨ c.toNat = 65279 := by
  unfold isJsWs at h
  simp only [Bool.or_eq_true, decide_eq_true_eq] at h
  rcases h with ((((((h | h) | h) | h) | h) | h) | h) | h <;>
    subst h <;> simp

theorem tokenChar_toNat {c : Char} (h : isTokenChar c = true) :
    (97 ≤ c.toNat ∧ c.toNat ≤ 122) ∨ (48 ≤ c.toNat ∧ c.toNat ≤ 57) ∨
    c.toNat = 46 ∨ c.toNat = 45 := by
  unfold isTokenChar isDigit10 at h
  simp only [Bool.or_eq_true, Bool.and_eq_true, decide_eq_true_eq] at h
  rcases h with ((h | h) | h) | h
  · exact Or.inl h
  · exact Or.inr (Or.inl h)
  · subst h; simp
  · subst h; simp

theorem tokenChar_not_ws {c : Char} (h : isTokenChar c = true) :
    isJsWs c = false := by
  by_contra hws
  have h2 := ws_toNat (by simpa using hws)
  have h1 := tokenChar_toNat h
  rcases h1 with h1 | h1 | h1 | h1 <;> rcases h2 with h2|h2|h2|h2|h2|h2|h2|h2 <;>
    omega

theorem collapseDisallowedAux_chars :
    ∀ (b : Bool) (l : List Char), ∀ c ∈ collapseDisallowedAux b l,
      isTokenChar c = true := by
  intro b l
  induction l generalizing b with
  | nil => intro c hc; simp [collapseDisallowedAux] at hc
  | cons a t ih =>
    intro c hc
    rw [collapseDisallowedAux] at hc
    by_cases ha : isTokenChar a
    · rw [if_pos ha] at hc
      rcases List.mem_cons.mp hc with rfl | hc
      · exact ha
      · exact ih false c hc
    · rw [if_neg ha] at hc
      by_cases hb : b
      · rw [if_pos hb] at hc
        exact ih true c hc
      · rw [if_neg hb] at hc
        rcases List.mem_cons.mp hc with rfl | hc
        · decide
        · exact ih true c hc

theorem collapseHyphensAux_sub :
    ∀ (b : Bool) (l : List Char), ∀ c ∈ collapseHyphensAux b l, c ∈ l := by
  intro b l
  induction l generalizing b with
  | nil => intro c hc; simp [collapseHyphensAux] at hc
  | cons a t ih =>
    intro c hc
    rw [collapseHyphensAux] at hc
    by_cases ha : a = '-'
    · rw [if_pos ha] at hc
      by_cases hb : b
      · rw [if_pos hb] at hc
        exact List.mem_cons_of_mem a (ih true c hc)
      · rw [if_neg hb] at hc
        rcases List.mem_cons.mp hc with rfl | hc
        · rw [ha]; exact List.mem_cons_self _ _
        · exact List.mem_cons_of_mem a (ih true c hc)
    · rw [if_neg ha] at hc
      rcases List.mem_cons.mp hc with rfl | hc
      · exact List.mem_cons_self _ _
      · exact List.mem_cons_of_mem a (ih false c hc)

theorem stripSeps_sub (l : List Char) : ∀ c ∈ stripSeps l, c ∈ l := by
  intro c hc
  unfold stripSeps at hc
  rw [List.mem_reverse] at hc
  have hc2 := (List.dropWhile_sublist _).mem hc
  rw [List.mem_reverse] at hc2
  exact (List.dropWhile_sublist _).mem hc2

theorem segTransform_chars (seg : List Char)
    (h : ∀ c ∈ seg, isTokenChar c = true) :
    ∀ c ∈ segTransform seg, isTokenChar c = true := by
  intro c hc
  unfold segTransform at hc
  split at hc
  · rename_i hcond
    refine toDigitsCore_chars 10 (fun c => isTokenChar c = true)
      (by norm_num) ?_ _ _ [] (by simp) c hc
    intro m hm
    interval_cases m <;> decide
  · exact h c hc

theorem segMapAux_chars :
    ∀ (l acc : List Char), (∀ c ∈ acc, isTokenChar c = true) →
      (∀ c ∈ l, isTokenChar c = true) →
      ∀ c ∈ segMapAux acc l, isTokenChar c = true := by
  intro l
  induction l with
  | nil =>
    intro acc hacc _ c hc
    rw [segMapAux] at hc
    exact segTransform_chars _ (fun d hd => hacc d (List.mem_reverse.mp hd))
      c hc
  | cons a t ih =>
    intro acc hacc hl c hc
    rw [segMapAux] at hc
    by_cases ha : isSep a
    · rw [if_pos ha] at hc
      rcases List.mem_append.mp hc with hc | hc
      · exact segTransform_chars _ (fun d hd => hacc d (List.mem_reverse.mp hd))
          c hc
      · rcases List.mem_cons.mp hc with rfl | hc
        · exact hl c (List.mem_cons_self _ _)
        · exact ih [] (by simp) (fun d hd => hl d (List.mem_cons_of_mem a hd))
            c hc
    · rw [if_neg ha] at hc
      refine ih (a :: acc) ?_ (fun d hd => hl d (List.mem_cons_of_mem a hd))
        c hc
      intro d hd
      rcases List.mem_cons.mp hd with rfl | hd
      · exact hl d (List.mem_cons_self _ _)
      · exact hacc d hd

theorem normalizeExamQuestionToken_chars (raw : String) :
    ∀ c ∈ (normalizeExamQuestionToken raw).data, isTokenChar c = true := by
  intro c hc
  unfold normalizeExamQuestionToken at hc
  simp only at hc
  rw [apply_ite String.data] at hc
  split at hc
  · simp at hc
  · have hc2 := stripSeps_sub _ c hc
    refine segMapAux_chars _ [] (by simp) ?_ c hc2
    intro d hd
    have hd2 := stripSeps_sub _ d hd
    have hd3 := collapseHyphensAux_sub false _ d hd2
    exact collapseDisallowedAux_chars false _ d hd3

theorem mem_of_getLast? {α : Type} :
    ∀ {l : List α} {a : α}, l.getLast? = some a → a ∈ l := by
  intro l
  induction l with
  | nil => intro a ha; simp at ha
  | cons b t ih =>
    intro a ha
    cases t with
    | nil =>
      simp only [List.getLast?_singleton, Option.some_inj] at ha
      subst ha
      exact List.mem_cons_self _ _
    | cons b' t' =>
      rw [List.getLast?_cons_cons] at ha
      exact List.mem_cons_of_mem b (ih ha)

theorem getLast_append_cons {α : Type} (l₁ : List α) (a : α) (l₂ : List α) :
    (l₁ ++ a :: l₂).getLast? = (a :: l₂).getLast? := by
  induction l₁ with
  | nil => rfl
  | cons b t ih =>
    rw [List.cons_append, ← ih]
    cases hc : t ++ a :: l₂ with
    | nil => exact absurd hc (by simp)
    | cons x xs => rw [List.getLast?_cons_cons]

theorem buildExamUid_data (year : String) (setNo : Option String)
    (sect tok : String) :
    (buildExamUid year setNo sect tok).data =
      'c' :: 's' :: 'e' :: ':' ::
        (year.data ++ ':' :: 's' :: 'e' :: 't' :: (normalizeSetNo setNo).data ++
          ':' :: sect.data) ++ ':' :: 'q' :: tok.data := by
  unfold buildExamUid
  simp only [String.data_append]
  simp

theorem buildExamUid_trim (year : String) (setNo : Option String)
    (sect tok : String) (htok : ∀ c ∈ tok.data, isJsWs c = false) :
    jsTrim (buildExamUid year setNo sect tok) = buildExamUid year setNo sect tok
      ∧ buildExamUid year setNo sect tok ≠ "" := by
  constructor
  · refine jsTrim_eq_self_of _ ?_ ?_
    · intro c hc
      rw [buildExamUid_data] at hc
      have hc2 : c = 'c' := (Option.some_inj.mp hc).symm
      subst hc2
      decide
    · intro c hc
      rw [buildExamUid_data] at hc
      rw [show ('c' :: 's' :: 'e' :: ':' ::
        (year.data ++ ':' :: 's' :: 'e' :: 't' :: (normalizeSetNo setNo).data ++
          ':' :: sect.data) ++ ':' :: 'q' :: tok.data) =
        (('c' :: 's' :: 'e' :: ':' ::
          (year.data ++ ':' :: 's' :: 'e' :: 't' ::
            (normalizeSetNo setNo).data ++ ':' :: sect.data) ++ [':']) ++
          'q' :: tok.data) from by simp] at hc
      rw [getLast_append_cons] at hc
      cases htd : tok.data with
      | nil =>
        rw [htd] at hc
        simp only [List.getLast?_singleton, Option.some_inj] at hc
        subst hc
        decide
      | cons x xs =>
        rw [htd, List.getLast?_cons_cons] at hc
        have hmem : c ∈ x :: xs := mem_of_getLast? hc
        rw [← htd] at hmem
        exact htok c hmem
  · intro he
    have h2 := congrArg String.data he
    rw [buildExamUid_data] at h2
    exact List.noConfusion h2

theorem examUidFromLink_ws (link yearTag u : String)
    (h : examUidFromLink link yearTag = some u) :
    jsTrim u = u ∧ u ≠ "" := by
  rw [examUidFromLink] at h
  simp only at h
  split at h
  · exact absurd h (by simp)
  · split at h
    · exact absurd h (by simp)
    · split at h
      · exact absurd h (by simp)
      · rw [Option.some_inj] at h
        rw [← h]
        exact buildExamUid_trim _ _ _ _ (fun c hc =>
          tokenChar_not_ws (normalizeExamQuestionToken_chars _ c hc))

theorem examUidFromTitle_ws (title yearTag u : String)
    (h : examUidFromTitle title yearTag = some u) :
    jsTrim u = u ∧ u ≠ "" := by
  rw [examUidFromTitle] at h
  simp only at h
  split at h
  · exact absurd h (by simp)
  · split at h
    · exact absurd h (by simp)
    · split at h
      · exact absurd h (by simp)
      · split at h
        · exact absurd h (by simp)
        · rw [Option.some_inj] at h
          rw [← h]
          exact buildExamUid_trim _ _ _ _ (fun c hc =>
            tokenChar_not_ws (normalizeExamQuestionToken_chars _ c hc))

theorem getExamUid_ws (q : Question) (u : String)
    (h : getExamUidFromQuestion q = some u) :
    jsTrim u = u ∧ u ≠ "" := by
  rw [getExamUidFromQuestion] at h
  simp only at h
  split at h
  · rename_i hne
    rw [Option.some_inj] at h
    subst h
    exact ⟨jsTrim_idem _, hne⟩
  · rcases orElse_eq_some_cases h with h1 | ⟨_, h2⟩
    · exact examUidFromLink_ws _ _ _ h1
    · exact examUidFromTitle_ws _ _ _ h2

theorem buildQuestionUid_uid_set (q : Question) (u : String)
    (h : q.question_uid = some u) (hu : u ≠ "") : buildQuestionUid q = u := by
  unfold buildQuestionUid
  rw [h]
  simp only [Option.getD_some]
  exact if_pos hu

theorem buildQuestionUid_ne_empty (q : Question) : buildQuestionUid q ≠ "" := by
  unfold buildQuestionUid
  by_cases h : q.question_uid.getD "" ≠ ""
  · rwa [if_pos h]
  · rw [if_neg h]
    cases hgo : extractGateOverflowId (q.link.getD "") with
    | some goId =>
      intro he
      have h2 := congrArg String.data he
      rw [String.data_append] at h2
      exact List.noConfusion h2
    | none =>
      intro he
      have h2 := congrArg String.data he
      rw [String.data_append] at h2
      exact List.noConfusion h2

theorem getExamUid_congr (q r : Question) (hl : r.link = q.link)
    (ht : r.title = q.title) (hy : r.year = q.year)
    (he : r.exam_uid = some ((getExamUidFromQuestion q).getD "")) :
    getExamUidFromQuestion r = getExamUidFromQuestion q := by
  cases hg : getExamUidFromQuestion q with
  | some u =>
    obtain ⟨hju, hne⟩ := getExamUid_ws q u hg
    rw [getExamUidFromQuestion]
    simp only
    rw [he, hg]
    simp only [Option.getD_some]
    rw [hju, if_pos hne]
  | none =>
    rw [getExamUidFromQuestion]
    simp only
    rw [he, hg]
    simp only [Option.getD_some, Option.getD_none]
    rw [show jsTrim "" = "" from rfl, if_neg (by simp)]
    rw [hl, ht, hy]
    rw [getExamUidFromQuestion] at hg
    simp only at hg
    split at hg
    · exact absurd hg (by simp)
    · exact hg

/-- **C10.** Identity derivation is idempotent: on a normalized record,
`buildQuestionUid` returns the very `question_uid` the record carries;
`getExamUidFromQuestion` returns the record's own `exam_uid` whenever that
field is set to a truthy (trimmed-nonempty) value; and `normalizeQuestion`
applied to an already-normalized record changes nothing. -/
theorem claim_identityIdempotent (q : Question) :
    buildQuestionUid (normalizeQuestion q) =
      (normalizeQuestion q).question_uid.getD "" ∧
    (jsTrim ((normalizeQuestion q).exam_uid.getD "") ≠ "" →
      getExamUidFromQuestion (normalizeQuestion q) =
        (normalizeQuestion q).exam_uid) ∧
    normalizeQuestion (normalizeQuestion q) = normalizeQuestion q := by
  have hU : buildQuestionUid (normalizeQuestion q) =
      buildQuestionUid (defaultFields q) :=
    buildQuestionUid_uid_set _ _ rfl (buildQuestionUid_ne_empty _)
  have hstable : getExamUidFromQuestion (normalizeQuestion q) =
      getExamUidFromQuestion (withUid q) :=
    getExamUid_congr (withUid q) (normalizeQuestion q) rfl rfl rfl rfl
  refine ⟨hU, ?_, ?_⟩
  · intro hne
    rw [hstable]
    have hfield : (normalizeQuestion q).exam_uid =
        some ((getExamUidFromQuestion (withUid q)).getD "") := rfl
    rw [hfield] at hne ⊢
    cases hg : getExamUidFromQuestion (withUid q) with
    | some u => rfl
    | none =>
      rw [hg] at hne
      exact absurd rfl hne
  · have houter : normalizeQuestion (normalizeQuestion q) =
        { withUid (normalizeQuestion q) with
          exam_uid := some ((getExamUidFromQuestion
            (withUid (normalizeQuestion q))).getD "") } := rfl
    rw [houter]
    have hWN : withUid (normalizeQuestion q) = normalizeQuestion q := by
      have hD : defaultFields (normalizeQuestion q) = normalizeQuestion q :=
        rfl
      show ({ defaultFields (normalizeQuestion q) with
        question_uid := some (buildQuestionUid
          (defaultFields (normalizeQuestion q))) } : Question) =
        normalizeQuestion q
      rw [hD, hU]
      rfl
    rw [hWN, hstable]
    rfl

/-- **C10 witness.** The idempotence properties at a concrete record whose
`exam_uid` is already the derivable `"cse:2008:set1:main:q78"`. -/
theorem claim_identityIdempotent_witness :
    buildQuestionUid
        (normalizeQuestion { exam_uid := some "cse:2008:set1:main:q78" }) =
      (normalizeQuestion
        { exam_uid := some "cse:2008:set1:main:q78" }).question_uid.getD "" ∧
    getExamUidFromQuestion
        (normalizeQuestion { exam_uid := some "cse:2008:set1:main:q78" }) =
      (normalizeQuestion
        { exam_uid := some "cse:2008:set1:main:q78" }).exam_uid ∧
    normalizeQuestion
        (normalizeQuestion { exam_uid := some "cse:2008:set1:main:q78" }) =
      normalizeQuestion { exam_uid := some "cse:2008:set1:main:q78" } :=
  ⟨(claim_identityIdempotent _).1,
   (claim_identityIdempotent _).2.1 (by decide),
   (claim_identityIdempotent _).2.2⟩

end GateQA
